import Mathlib

/-!
Shallow embedding of the document-detection pipeline of the id_reader
repository (src/preprocessing/document_detection/iso_id1_document_detector.cpp,
src/preprocessing/document_detection/document_detector.cpp and
src/api/id_reader_api.cpp), with theorems checking the specification's
claims about it.

Machine doubles are modelled as exact rationals and cv::Point as a pair of
integers.  The OpenCV primitives the pipeline calls (Canny, findContours,
approxPolyDP, convexHull, minEnclosingCircle, arcLength) are external to
the repository; they are modelled as parameters (the structure Prims
below) constrained only by geometric facts that hold of the real
library (stated as hypotheses where a theorem needs them), while
everything the repository itself computes — area filtering, scoring,
corner selection, corner ordering, scaling and normalisation — is
embedded function by function from the source.
-/

namespace IdReader

/-- A pixel coordinate, cv::Point: first component x, second y. -/
abbrev Point := ℤ × ℤ

/-- A contour: an ordered list of integer points (closed polygon),
std::vector of cv::Point. -/
abbrev Contour := List Point

/-- cv::Size (cols = width, rows = height). -/
structure Size where
  width : ℤ
  height : ℤ
deriving DecidableEq

/-- Cross product used by the shoelace sum. -/
def cross2 (p q : Point) : ℤ := p.1 * q.2 - p.2 * q.1

/-- Shoelace sum of consecutive cross products, closing back to p0. -/
def shoelaceAux (p0 : Point) : List Point → ℤ
  | [] => 0
  | [p] => cross2 p p0
  | p :: q :: r => cross2 p q + shoelaceAux p0 (q :: r)

/-- Twice the signed polygon area. -/
def shoelace2 : Contour → ℤ
  | [] => 0
  | p :: ps => shoelaceAux p (p :: ps)

/-- cv::contourArea (oriented = false): the absolute polygon area computed
by Green's formula. -/
def contourArea (c : Contour) : ℚ := ((|shoelace2 c| : ℤ) : ℚ) / 2

/-- cv::Rect. -/
structure Rect where
  x : ℤ
  y : ℤ
  width : ℤ
  height : ℤ
deriving DecidableEq

/-- cv::boundingRect of a point list.  OpenCV's integer bounding box is
inclusive of the extreme pixels, so width = max x − min x + 1 and
height = max y − min y + 1.  The empty contour (never produced by
cv::findContours) gets the zero rectangle. -/
def boundingRect : Contour → Rect
  | [] => ⟨0, 0, 0, 0⟩
  | p :: ps =>
    let x0 := (ps.map Prod.fst).foldl min p.1
    let y0 := (ps.map Prod.snd).foldl min p.2
    let x1 := (ps.map Prod.fst).foldl max p.1
    let y1 := (ps.map Prod.snd).foldl max p.2
    ⟨x0, y0, x1 - x0 + 1, y1 - y0 + 1⟩

/-- The mutable parameter fields of ISO_ID1_DocumentDetector (all doubles
in the source, modelled as rationals). -/
structure ISOParams where
  canny_threshold1_ : ℚ
  canny_threshold2_ : ℚ
  min_contour_area_ratio_ : ℚ
  max_contour_area_ratio_ : ℚ
  approx_epsilon_factor_ : ℚ
  target_aspect_ratio_ : ℚ
  aspect_ratio_tolerance_ : ℚ
deriving DecidableEq

/-- The field values set by the constructor
ISO_ID1_DocumentDetector::ISO_ID1_DocumentDetector. -/
def isoDefault : ISOParams := ⟨10, 30, 0.002, 0.99, 0.01, 1.586, 0.4⟩

/-- ISO_ID1_DocumentDetector::setCannyThresholds. -/
def setCannyThresholds (threshold1 threshold2 : ℚ) (s : ISOParams) : ISOParams :=
  { s with canny_threshold1_ := threshold1, canny_threshold2_ := threshold2 }

/-- ISO_ID1_DocumentDetector::setAreaRatios. -/
def setAreaRatios (min_ratio max_ratio : ℚ) (s : ISOParams) : ISOParams :=
  { s with min_contour_area_ratio_ := min_ratio, max_contour_area_ratio_ := max_ratio }

/-- ISO_ID1_DocumentDetector::setTargetAspectRatio. -/
def setTargetAspectRatio (ratio tolerance : ℚ) (s : ISOParams) : ISOParams :=
  { s with target_aspect_ratio_ := ratio, aspect_ratio_tolerance_ := tolerance }

/-- ISO_ID1_DocumentDetector::adaptParametersForImageSize. -/
def adaptParametersForImageSize (image_size : Size) (s : ISOParams) : ISOParams :=
  let min_dimension := min image_size.width image_size.height
  let max_dimension := max image_size.width image_size.height
  let s1 :=
    if min_dimension < 400 then
      { s with canny_threshold1_ := 30, canny_threshold2_ := 90,
               min_contour_area_ratio_ := 0.05, max_contour_area_ratio_ := 0.95,
               approx_epsilon_factor_ := 0.02, aspect_ratio_tolerance_ := 0.5 }
    else if min_dimension < 800 then
      { s with canny_threshold1_ := 25, canny_threshold2_ := 75,
               min_contour_area_ratio_ := 0.01, max_contour_area_ratio_ := 0.90,
               approx_epsilon_factor_ := 0.015, aspect_ratio_tolerance_ := 0.4 }
    else if min_dimension < 1500 then
      { s with canny_threshold1_ := 20, canny_threshold2_ := 60,
               min_contour_area_ratio_ := 0.005, max_contour_area_ratio_ := 0.85,
               approx_epsilon_factor_ := 0.01, aspect_ratio_tolerance_ := 0.35 }
    else
      { s with canny_threshold1_ := 15, canny_threshold2_ := 45,
               min_contour_area_ratio_ := 0.002, max_contour_area_ratio_ := 0.80,
               approx_epsilon_factor_ := 0.008, aspect_ratio_tolerance_ := 0.3 }
  let aspect := (max_dimension : ℚ) / (min_dimension : ℚ)
  if 2.5 < aspect then
    { s1 with min_contour_area_ratio_ := s1.min_contour_area_ratio_ * 0.5,
              aspect_ratio_tolerance_ := s1.aspect_ratio_tolerance_ * 1.2 }
  else s1

/-- The OpenCV black-box primitives the detector calls, as opaque-to-the-model
function parameters.  approxPolyDP takes the epsilon computed by the caller;
arcLength is the (real-valued) perimeter, only ever fed back into epsilon;
convexHull returns the hull vertices; distRatioOf c sz stands for the
quotient distance_from_center / max_distance computed from
cv::minEnclosingCircle's centre in calculateDocumentScore, which for
any contour inside the image lies in [0, 1] because the centre of the
minimal enclosing circle lies in the convex hull of the points.
Theorems assume of these only what holds of the real primitives:
approxPolyDP and convexHull return a subset of the input vertices. -/
structure Prims where
  approxPolyDP : ℚ → Contour → Contour
  arcLength : Contour → ℚ
  convexHull : Contour → Contour
  distRatioOf : Contour → Size → ℚ

/-- ISO_ID1_DocumentDetector::calculateDocumentScore: weighted sum of the
area, aspect-ratio, shape-regularity and position sub-scores; contours
with fewer than four vertices return 0 at once. -/
def calculateDocumentScore (P : Prims) (s : ISOParams) (image_size : Size)
    (contour : Contour) : ℚ :=
  if contour.length < 4 then 0
  else
    let area := contourArea contour
    let image_area : ℚ := ((image_size.width * image_size.height : ℤ) : ℚ)
    let area_r := area / image_area
    let area_score : ℚ :=
      if 0.002 ≤ area_r ∧ area_r ≤ 0.99 then
        if 0.01 ≤ area_r ∧ area_r ≤ 0.7 then 1
        else if 0.85 < area_r then 0.9
        else 0.5
      else 0
    let bounds := boundingRect contour
    let aspect_r : ℚ := (bounds.width : ℚ) / (bounds.height : ℚ)
    let aspect_diff := |aspect_r - s.target_aspect_ratio_| / s.target_aspect_ratio_
    let aspect_score : ℚ :=
      if aspect_diff ≤ s.aspect_ratio_tolerance_ then
        1 - aspect_diff / s.aspect_ratio_tolerance_
      else 0
    let shape_score : ℚ :=
      if contour.length = 4 then 1
      else if 4 ≤ contour.length ∧ contour.length ≤ 8 then 0.8
      else if 8 < contour.length ∧ contour.length ≤ 12 then 0.5
      else 0
    let position_score : ℚ := 1 - P.distRatioOf contour image_size
    area_score * 0.25 + aspect_score * 0.4 + shape_score * 0.15 + position_score * 0.2

/-- The remove_if predicate of findDocumentContours, phrased as "keep":
true when the contour survives the filter. -/
def contourKeep (s : ISOParams) (edge_size : Size) (contour : Contour) : Bool :=
  let area := contourArea contour
  let image_area : ℚ := ((edge_size.height * edge_size.width : ℤ) : ℚ)
  let min_area := image_area * s.min_contour_area_ratio_
  let max_area := image_area * s.max_contour_area_ratio_
  if area < min_area ∨ max_area < area then false
  else
    let bounds := boundingRect contour
    if bounds.x = 0 ∧ bounds.y = 0 ∧ bounds.width = edge_size.width ∧
        bounds.height = edge_size.height then
      decide ((1.2 : ℚ) ≤ (bounds.width : ℚ) / (bounds.height : ℚ) ∧
        (bounds.width : ℚ) / (bounds.height : ℚ) ≤ 2.2)
    else true

/-- ISO_ID1_DocumentDetector::findDocumentContours.  The raw contour list
extracted by cv::findContours from the edge map is a parameter; the
function fails (none) when it is empty or the filter removes everything,
and otherwise returns the surviving candidates. -/
def findDocumentContours (s : ISOParams) (edge_size : Size)
    (contours : List Contour) : Option (List Contour) :=
  if contours.isEmpty then none
  else
    let kept := contours.filter (contourKeep s edge_size)
    if kept.isEmpty then none else some kept

/-- The polygon approximation applied to each candidate in
findBestDocumentContour: epsilon = approx_epsilon_factor_ × arcLength. -/
def approxOf (P : Prims) (s : ISOParams) (c : Contour) : Contour :=
  P.approxPolyDP (s.approx_epsilon_factor_ * P.arcLength c) c

/-- The loop of findBestDocumentContour: the accumulator carries
(best_score, best_contour); a candidate replaces the incumbent only on a
strictly greater score. -/
def bestFold (P : Prims) (s : ISOParams) (image_size : Size) :
    List Contour → ℚ × Option Contour → ℚ × Option Contour
  | [], acc => acc
  | c :: cs, acc =>
    let approx := approxOf P s c
    let score := calculateDocumentScore P s image_size approx
    if acc.1 < score then bestFold P s image_size cs (score, some approx)
    else bestFold P s image_size cs acc

/-- ISO_ID1_DocumentDetector::findBestDocumentContour: the winning
(approximated) contour together with its score, or none when no candidate
was stored or the best score is at most 0.1. -/
def findBestDocumentContour (P : Prims) (s : ISOParams) (image_size : Size)
    (contours : List Contour) : Option (Contour × ℚ) :=
  let r := bestFold P s image_size contours (0, none)
  match r.2 with
  | none => none
  | some best => if 0.1 < r.1 then some (best, r.1) else none

/-- The highest score over the candidate list (0 when empty), the value
best_score holds after the findBestDocumentContour loop. -/
def maxScore (P : Prims) (s : ISOParams) (image_size : Size)
    (contours : List Contour) : ℚ :=
  (contours.map fun c => calculateDocumentScore P s image_size (approxOf P s c)).foldl max 0

/-- std::min_element over p :: ps with a strict projection comparison:
the first element attaining the minimum. -/
def firstMinBy (f : Point → ℤ) (p : Point) (ps : List Point) : Point :=
  ps.foldl (fun b q => if f q < f b then q else b) p

/-- std::max_element over p :: ps: the first element attaining the maximum. -/
def firstMaxBy (f : Point → ℤ) (p : Point) (ps : List Point) : Point :=
  ps.foldl (fun b q => if f b < f q then q else b) p

/-- The lexicographic comparator selectFourCorners sorts with:
a.x < b.x or (a.x = b.x and a.y < b.y). -/
def lexLT (a b : Point) : Prop := a.1 < b.1 ∨ (a.1 = b.1 ∧ a.2 < b.2)

instance : DecidableRel lexLT := fun a b => by unfold lexLT; infer_instance

/-- std::unique: removes consecutive duplicates. -/
def dedupConsec : List Point → List Point
  | [] => []
  | [p] => [p]
  | p :: q :: r => if p = q then dedupConsec (p :: r) else p :: dedupConsec (q :: r)
termination_by l => l.length

/-- ISO_ID1_DocumentDetector::selectFourCorners: the four extreme points
(first leftmost, first rightmost, first topmost, first bottommost),
sorted lexicographically, consecutive duplicates removed, truncated to 4
when at least 4 remain. -/
def selectFourCorners (points : List Point) : List Point :=
  if points.length ≤ 4 then points
  else
    match points with
    | [] => []
    | p :: ps =>
      let corners := [firstMinBy Prod.fst p ps, firstMaxBy Prod.fst p ps,
                      firstMinBy Prod.snd p ps, firstMaxBy Prod.snd p ps]
      let sorted := corners.insertionSort (fun a b => lexLT a b ∨ a = b)
      let uniq := dedupConsec sorted
      if 4 ≤ uniq.length then uniq.take 4 else uniq

/-- Exact key for the std::atan2(dy, dx) angle order over (−π, π].
The first component classifies the half-plane: 0 for angles in (−π, 0)
(dy < 0), 1 for angle 0 (dy = 0, dx ≥ 0, including the zero vector, for
which atan2 returns 0), 2 for angles in (0, π) (dy > 0), 3 for angle π
(dy = 0, dx < 0).  Inside each open half-plane the angle is a strictly
increasing function of −dx/dy (namely −cot of the angle), so lexicographic
comparison of the pair is exactly comparison of the atan2 values.  Two
vectors get equal keys iff their atan2 angles are equal. -/
def angKeyPair (v : Point) : ℚ × ℚ :=
  ((if v.2 < 0 then 0 else if v.2 = 0 ∧ 0 ≤ v.1 then 1 else if 0 < v.2 then 2 else 3 : ℚ),
   if v.2 = 0 then 0 else (-v.1 : ℚ) / (v.2 : ℚ))

def angKey (v : Point) : ℚ ×ₗ ℚ := toLex (angKeyPair v)

/-- The angle-from-centroid comparison sortCornerPoints sorts by. -/
def angLe (c p q : Point) : Prop := angKey (p - c) ≤ angKey (q - c)

instance (c : Point) : DecidableRel (angLe c) := fun p q => by unfold angLe; infer_instance

/-- The centroid with the C++ integer division by 4 (truncation toward
zero, Int.tdiv). -/
def centroidOf (points : List Point) : Point :=
  (Int.tdiv (points.map Prod.fst).sum 4, Int.tdiv (points.map Prod.snd).sum 4)

/-- Squared distance from the image origin (cv::norm is its square root,
and the code only compares distances). -/
def distSq (p : Point) : ℤ := p.1 * p.1 + p.2 * p.2

/-- Index of the first point at minimal distance from the origin: the C++
loop over the four sorted points keeps the earlier index on ties because
it compares with a strict less-than. -/
def argminIdx : List Point → ℕ
  | [] => 0
  | [_] => 0
  | p :: q :: r =>
    let j := argminIdx (q :: r)
    if distSq ((q :: r).getD j (0, 0)) < distSq p then j + 1 else 0

/-- ISO_ID1_DocumentDetector::sortCornerPoints: sort the four points by
angle from their centroid (ascending atan2), then rotate so the point
nearest the image origin comes first.  Lists whose length is not 4 are
returned unchanged. -/
def sortCornerPoints (points : List Point) : List Point :=
  if points.length ≠ 4 then points
  else
    let centroid := centroidOf points
    let sorted := points.insertionSort (angLe centroid)
    sorted.rotate (argminIdx sorted)

/-- ISO_ID1_DocumentDetector::findCornerPoints. -/
def findCornerPoints (P : Prims) (contour : Contour) : List Point :=
  if contour.length ≤ 4 then contour
  else
    let hull := P.convexHull contour
    if hull.length ≤ 4 then hull
    else
      let corners := P.approxPolyDP (0.02 * P.arcLength hull) hull
      if 4 < corners.length then selectFourCorners corners else corners

/-- The DocumentBounds struct: four normalized corners plus confidence. -/
structure DocumentBounds where
  x1 : ℚ
  y1 : ℚ
  x2 : ℚ
  y2 : ℚ
  x3 : ℚ
  y3 : ℚ
  x4 : ℚ
  y4 : ℚ
  confidence : ℚ
deriving DecidableEq

/-- ISO_ID1_DocumentDetector::extractDocumentBounds: resolve to exactly 4
corners, order them, normalise by the image size, and recompute the
document score of the (full) contour as the confidence. -/
def extractDocumentBounds (P : Prims) (s : ISOParams) (image_size : Size)
    (contour : Contour) : Option DocumentBounds :=
  if contour.length < 4 then none
  else
    let corners := if contour.length = 4 then contour else findCornerPoints P contour
    if corners.length ≠ 4 then none
    else
      let sc := sortCornerPoints corners
      let g := fun i => sc.getD i ((0 : ℤ), (0 : ℤ))
      some
        { x1 := ((g 0).1 : ℚ) / (image_size.width : ℚ)
          y1 := ((g 0).2 : ℚ) / (image_size.height : ℚ)
          x2 := ((g 1).1 : ℚ) / (image_size.width : ℚ)
          y2 := ((g 1).2 : ℚ) / (image_size.height : ℚ)
          x3 := ((g 2).1 : ℚ) / (image_size.width : ℚ)
          y3 := ((g 2).2 : ℚ) / (image_size.height : ℚ)
          x4 := ((g 3).1 : ℚ) / (image_size.width : ℚ)
          y4 := ((g 3).2 : ℚ) / (image_size.height : ℚ)
          confidence := calculateDocumentScore P s image_size contour }

/-- cvRound: round to nearest, ties to even (OpenCV's rounding, used by
cv::resize to compute the destination size). -/
def cvRound (q : ℚ) : ℤ :=
  if q - ⌊q⌋ < 1 / 2 then ⌊q⌋
  else if 1 / 2 < q - ⌊q⌋ then ⌊q⌋ + 1
  else if ⌊q⌋ % 2 = 0 then ⌊q⌋ else ⌊q⌋ + 1

/-- The truncation toward zero a static_cast<int> performs on a double. -/
def truncQ (q : ℚ) : ℤ := Int.tdiv q.num (q.den : ℤ)

/-- The scale factor detectDocument chooses: the code triggers on
input_image.cols > 1200 only (the width, not the larger dimension). -/
def scaleFactor (sz : Size) : ℚ :=
  if 1200 < sz.width then (1200 : ℚ) / (sz.width : ℚ) else 1

/-- The working-image size: cv::resize with fx = fy = scale factor
rounds each destination dimension with cvRound. -/
def workingSize (sz : Size) : Size :=
  if 1200 < sz.width then
    ⟨cvRound ((sz.width : ℚ) * ((1200 : ℚ) / (sz.width : ℚ))),
     cvRound ((sz.height : ℚ) * ((1200 : ℚ) / (sz.width : ℚ)))⟩
  else sz

/-- The per-point mapping back to original pixel space:
point = static_cast<int>(point / scale_factor). -/
def scaleBack (sf : ℚ) (p : Point) : Point :=
  (truncQ ((p.1 : ℚ) / sf), truncQ ((p.2 : ℚ) / sf))

/-- The parameter state a detectDocument call actually uses: the call
unconditionally runs adaptParametersForImageSize on the working-image
size before any stage reads a parameter. -/
def detectParams (s : ISOParams) (sz : Size) : ISOParams :=
  adaptParametersForImageSize (workingSize sz) s

/-- ISO_ID1_DocumentDetector::detectDocument.  The contour list stands for
the output of cv::findContours on the preprocessed working image
(preprocessImageForID1Document itself cannot fail).  Empty input is
rejected first; the winning contour is scaled back to original pixel
space when a downscale happened, then converted to bounds. -/
def detectDocument (P : Prims) (s0 : ISOParams) (sz : Size)
    (contours : List Contour) : Option DocumentBounds :=
  if sz.width = 0 ∨ sz.height = 0 then none
  else
    let sf := scaleFactor sz
    let wsz := workingSize sz
    let s := detectParams s0 sz
    match findDocumentContours s wsz contours with
    | none => none
    | some cs =>
      match findBestDocumentContour P s wsz cs with
      | none => none
      | some (best, _) =>
        let scaled := if sf = 1 then best else best.map (scaleBack sf)
        extractDocumentBounds P s sz scaled

/-- The parameter fields of the generic DocumentDetector (absolute areas,
not ratios), the detector id_reader_set_config configures. -/
structure GenParams where
  canny_threshold1_ : ℚ
  canny_threshold2_ : ℚ
  min_contour_area_ : ℚ
  max_contour_area_ : ℚ
  approx_epsilon_factor_ : ℚ
deriving DecidableEq

/-- DocumentDetector::DocumentDetector defaults. -/
def genDefault : GenParams := ⟨50, 150, 10000, 500000, 0.02⟩

/-- DocumentDetector::setCannyThresholds. -/
def genSetCannyThresholds (threshold1 threshold2 : ℚ) (s : GenParams) : GenParams :=
  { s with canny_threshold1_ := threshold1, canny_threshold2_ := threshold2 }

/-- DocumentDetector::setContourAreaRange. -/
def setContourAreaRange (min_area max_area : ℚ) (s : GenParams) : GenParams :=
  { s with min_contour_area_ := min_area, max_contour_area_ := max_area }

/-- id_reader_set_config's effect on the context's detector parameters
(v is the numeric value std::stod parses from the configured string; the
context's string-map update carries no detector state and is not
modelled). -/
def id_reader_set_config (key : String) (v : ℚ) (s : GenParams) : GenParams :=
  if key = "canny_threshold1" then genSetCannyThresholds v 150 s
  else if key = "canny_threshold2" then genSetCannyThresholds 50 v s
  else if key = "min_contour_area" then setContourAreaRange v 500000 s
  else if key = "max_contour_area" then setContourAreaRange 10000 v s
  else s

/-- The scoring formula exactly as the specification (§4.4) words it, for
comparison with calculateDocumentScore: a weighted sum of four sub-scores
with no early return, the aspect score written as a max with 0.  The
centredness sub-score is the same black-box distance quotient. -/
def specScore (P : Prims) (target tolerance : ℚ) (image_size : Size)
    (contour : Contour) : ℚ :=
  let area_r := contourArea contour / ((image_size.width * image_size.height : ℤ) : ℚ)
  let areaS : ℚ :=
    if 0.002 ≤ area_r ∧ area_r ≤ 0.99 then
      if 0.01 ≤ area_r ∧ area_r ≤ 0.7 then 1
      else if 0.85 < area_r then 0.9
      else 0.5
    else 0
  let b := boundingRect contour
  let aspectS : ℚ :=
    max 0 (1 - |(b.width : ℚ) / (b.height : ℚ) - target| / (target * tolerance))
  let n := contour.length
  let shapeS : ℚ :=
    if n = 4 then 1 else if 4 ≤ n ∧ n ≤ 8 then 0.8
    else if 9 ≤ n ∧ n ≤ 12 then 0.5 else 0
  let centerS : ℚ := 1 - P.distRatioOf contour image_size
  0.25 * areaS + 0.4 * aspectS + 0.15 * shapeS + 0.2 * centerS

/-- A concrete instantiation of the primitives, used to evaluate the
pipeline on explicit inputs: polygon approximation and convex hull return
their input unchanged (both are vertex-subset maps, so every subset
hypothesis holds), the perimeter is irrelevant to every claim and set to
0, and the enclosing-circle centre sits exactly at the image centre
(distance quotient 0), which is the true cv::minEnclosingCircle value for
the centred rectangles the concrete inputs use. -/
def idPrims : Prims := ⟨fun _ c => c, fun _ => 0, fun c => c, fun _ _ => 0⟩

/-- Membership in the pixel rectangle of an image of the given size. -/
def inImage (p : Point) (sz : Size) : Prop :=
  0 ≤ p.1 ∧ p.1 ≤ sz.width - 1 ∧ 0 ≤ p.2 ∧ p.2 ≤ sz.height - 1

/-! ## Helper lemmas -/

theorem cvRound_intCast (n : ℤ) : cvRound (n : ℚ) = n := by
  unfold cvRound
  rw [Int.floor_intCast]
  simp

theorem cvRound_le (q : ℚ) : (cvRound q : ℚ) ≤ q + 1 / 2 := by
  have hfl : (⌊q⌋ : ℚ) ≤ q := Int.floor_le q
  unfold cvRound
  split_ifs with h1 h2 h3
  · linarith
  · push_cast; linarith
  · push_cast
    have : q - ⌊q⌋ = 1 / 2 := le_antisymm (not_lt.mp h2) (not_lt.mp h1)
    linarith
  · push_cast
    have : q - ⌊q⌋ = 1 / 2 := le_antisymm (not_lt.mp h2) (not_lt.mp h1)
    linarith

/-! ## C10 -/

/-- C10: id_reader_set_config with key "canny_threshold1" sets the first
Canny threshold to the parsed value and resets the second to the
hard-coded default 150; "canny_threshold2" resets the first to 50;
"min_contour_area" resets the maximum area to 500000; "max_contour_area"
resets the minimum area to 10000.  Setting one key therefore overwrites
whatever was previously configured for the partner parameter. -/
theorem C10_set_config_partner_defaults (s : GenParams) (v : ℚ) :
    id_reader_set_config "canny_threshold1" v s
        = { s with canny_threshold1_ := v, canny_threshold2_ := 150 } ∧
    id_reader_set_config "canny_threshold2" v s
        = { s with canny_threshold1_ := 50, canny_threshold2_ := v } ∧
    id_reader_set_config "min_contour_area" v s
        = { s with min_contour_area_ := v, max_contour_area_ := 500000 } ∧
    id_reader_set_config "max_contour_area" v s
        = { s with min_contour_area_ := 10000, max_contour_area_ := v } := by
  refine ⟨?_, ?_, ?_, ?_⟩ <;>
    simp [id_reader_set_config, genSetCannyThresholds, setContourAreaRange]

/-! ## C5 -/

/-- C5 counterexample: after explicitly configuring the area ratios to
0.3 / 0.5 via setAreaRatios, the parameter state a detectDocument call on
a 400×400 image actually uses (detectParams, i.e. the unconditional
adaptParametersForImageSize at the start of the call) carries
min_contour_area_ratio_ = 0.01, not the configured 0.3: the explicitly
configured value is overwritten, not given precedence. -/
theorem C5_counterexample :
    (detectParams (setAreaRatios 0.3 0.5 isoDefault) ⟨400, 400⟩).min_contour_area_ratio_
        = 0.01 ∧ (0.01 : ℚ) ≠ 0.3 := by
  constructor
  · norm_num [detectParams, workingSize, adaptParametersForImageSize, setAreaRatios,
      isoDefault]
  · norm_num

/-- C5 amended: on the ISO detector every detection call unconditionally
recomputes the adaptive parameters, so the parameter state the call uses
is independent of any previously configured Canny thresholds, area
ratios, epsilon or aspect tolerance — only the configured target aspect
ratio survives (adaptParametersForImageSize never writes that field). -/
theorem C5_config_overwritten_by_adapt (s₁ s₂ : ISOParams) (sz : Size)
    (h : s₁.target_aspect_ratio_ = s₂.target_aspect_ratio_) :
    detectParams s₁ sz = detectParams s₂ sz ∧
    (detectParams s₁ sz).target_aspect_ratio_ = s₁.target_aspect_ratio_ := by
  unfold detectParams adaptParametersForImageSize
  dsimp only
  constructor
  · split_ifs <;> simp_all
  · split_ifs <;> simp_all

/-- C5 witness: the amended theorem applied to the explicitly configured
state of the counterexample and the default state. -/
theorem C5_witness :
    detectParams (setAreaRatios 0.3 0.5 isoDefault) ⟨400, 400⟩
        = detectParams isoDefault ⟨400, 400⟩ ∧
    (detectParams (setAreaRatios 0.3 0.5 isoDefault) ⟨400, 400⟩).target_aspect_ratio_
        = (setAreaRatios 0.3 0.5 isoDefault).target_aspect_ratio_ :=
  C5_config_overwritten_by_adapt (setAreaRatios 0.3 0.5 isoDefault) isoDefault ⟨400, 400⟩ rfl

/-! ## C4 -/

/-- C4 counterexample: a portrait 800×2000 image has larger dimension
2000 > 1200, yet the code (which tests only input_image.cols) neither
downscales it nor makes its larger working dimension 1200: the scale
factor stays 1 and the working size stays 800×2000. -/
theorem C4_counterexample :
    1200 < max (Size.mk 800 2000).width (Size.mk 800 2000).height ∧
    scaleFactor ⟨800, 2000⟩ = 1 ∧
    workingSize ⟨800, 2000⟩ = ⟨800, 2000⟩ ∧
    max (workingSize ⟨800, 2000⟩).width (workingSize ⟨800, 2000⟩).height ≠ 1200 := by
  refine ⟨by norm_num, ?_, ?_, ?_⟩ <;> norm_num [scaleFactor, workingSize]

/-- C4 amended: the downscale is triggered by the image width alone.
When the width exceeds 1200 the scale factor is 1200/width and the
working width becomes exactly 1200 (the height is cvRounded); when the
width is at most 1200 the image is processed at native resolution with
scale factor 1 — regardless of the height. -/
theorem C4_downscale_on_width (sz : Size) (hw : 0 < sz.width) :
    (1200 < sz.width →
      scaleFactor sz = 1200 / (sz.width : ℚ) ∧
      (workingSize sz).width = 1200 ∧
      (workingSize sz).height = cvRound ((sz.height : ℚ) * (1200 / (sz.width : ℚ)))) ∧
    (sz.width ≤ 1200 → scaleFactor sz = 1 ∧ workingSize sz = sz) := by
  constructor
  · intro h
    have hne : (sz.width : ℚ) ≠ 0 := by positivity
    refine ⟨by rw [scaleFactor, if_pos h], ?_, by rw [workingSize, if_pos h]⟩
    rw [workingSize, if_pos h]
    show cvRound ((sz.width : ℚ) * ((1200 : ℚ) / (sz.width : ℚ))) = 1200
    rw [mul_div_cancel₀ _ hne]
    exact_mod_cast cvRound_intCast 1200
  · intro h
    have h' : ¬ 1200 < sz.width := not_lt.mpr h
    exact ⟨by rw [scaleFactor, if_neg h'], by rw [workingSize, if_neg h']⟩

/-- C4 witness: the amended theorem at a 2400×1800 image. -/
theorem C4_witness :
    (1200 < (2400 : ℤ) →
      scaleFactor ⟨2400, 1800⟩ = 1200 / ((2400 : ℤ) : ℚ) ∧
      (workingSize ⟨2400, 1800⟩).width = 1200 ∧
      (workingSize ⟨2400, 1800⟩).height
          = cvRound (((1800 : ℤ) : ℚ) * (1200 / ((2400 : ℤ) : ℚ)))) ∧
    ((2400 : ℤ) ≤ 1200 →
      scaleFactor ⟨2400, 1800⟩ = 1 ∧ workingSize ⟨2400, 1800⟩ = ⟨2400, 1800⟩) :=
  C4_downscale_on_width ⟨2400, 1800⟩ (by norm_num)

/-! ## C8 -/

/-- C8: adaptParametersForImageSize buckets by the smaller dimension
exactly as the spec's table prescribes (edge thresholds 30/90, min ratio
0.05, max ratio 0.95, epsilon 0.02, tolerance 0.50 below 400, and
correspondingly for the 400–799, 800–1499 and ≥1500 buckets), halves the
min area ratio and multiplies the aspect tolerance by 1.2 when the
dimension ratio exceeds 2.5, never touches the target aspect ratio, has
no failure mode, and always returns positive thresholds and tolerance
with 0 < min ratio < max ratio. -/
theorem C8_adaptive_parameter_table (s : ISOParams) (sz : Size) :
    let a := adaptParametersForImageSize sz s
    let minD := min sz.width sz.height
    let wide := (2.5 : ℚ) <
      ((max sz.width sz.height : ℤ) : ℚ) / ((min sz.width sz.height : ℤ) : ℚ)
    a.target_aspect_ratio_ = s.target_aspect_ratio_ ∧
    a.canny_threshold1_ =
      (if minD < 400 then 30 else if minD < 800 then 25 else if minD < 1500 then 20 else 15) ∧
    a.canny_threshold2_ =
      (if minD < 400 then 90 else if minD < 800 then 75 else if minD < 1500 then 60 else 45) ∧
    a.max_contour_area_ratio_ =
      (if minD < 400 then 0.95 else if minD < 800 then 0.90
       else if minD < 1500 then 0.85 else 0.80) ∧
    a.approx_epsilon_factor_ =
      (if minD < 400 then 0.02 else if minD < 800 then 0.015
       else if minD < 1500 then 0.01 else 0.008) ∧
    a.min_contour_area_ratio_ =
      (if wide then 0.5 else 1) *
      (if minD < 400 then 0.05 else if minD < 800 then 0.01
       else if minD < 1500 then 0.005 else 0.002) ∧
    a.aspect_ratio_tolerance_ =
      (if wide then 1.2 else 1) *
      (if minD < 400 then 0.5 else if minD < 800 then 0.4
       else if minD < 1500 then 0.35 else 0.3) ∧
    0 < a.min_contour_area_ratio_ ∧
    a.min_contour_area_ratio_ < a.max_contour_area_ratio_ ∧
    0 < a.canny_threshold1_ ∧ 0 < a.canny_threshold2_ ∧
    0 < a.aspect_ratio_tolerance_ := by
  unfold adaptParametersForImageSize
  dsimp only
  split_ifs <;> norm_num

/-! ## C9 -/

/-- C9: the contour filter keeps a contour exactly when its enclosed area
lies within [min ratio, max ratio] times the image area and, in the
special case where its bounding box is the full image, its aspect ratio
additionally lies in [1.2, 2.2]; findDocumentContours fails exactly when
zero contours were extracted or all were filtered out, and otherwise
returns precisely the surviving contours. -/
theorem C9_contour_filter_characterisation (s : ISOParams) (sz : Size)
    (contours : List Contour) :
    (∀ c : Contour,
      contourKeep s sz c = true ↔
        (((sz.height * sz.width : ℤ) : ℚ) * s.min_contour_area_ratio_ ≤ contourArea c ∧
         contourArea c ≤ ((sz.height * sz.width : ℤ) : ℚ) * s.max_contour_area_ratio_ ∧
         (boundingRect c = ⟨0, 0, sz.width, sz.height⟩ →
           (1.2 : ℚ) ≤ ((boundingRect c).width : ℚ) / ((boundingRect c).height : ℚ) ∧
           ((boundingRect c).width : ℚ) / ((boundingRect c).height : ℚ) ≤ 2.2))) ∧
    (findDocumentContours s sz contours = none ↔
      contours.filter (contourKeep s sz) = []) ∧
    (∀ kept, findDocumentContours s sz contours = some kept →
      kept = contours.filter (contourKeep s sz) ∧ kept ≠ []) := by
  refine ⟨?_, ?_, ?_⟩
  · intro c
    unfold contourKeep
    dsimp only
    split_ifs with h1 h2
    · simp only [Bool.false_eq_true, false_iff]
      rintro ⟨hmin, hmax, -⟩
      rcases h1 with h | h
      · exact absurd hmin (not_le.mpr h)
      · exact absurd hmax (not_le.mpr h)
    · push_neg at h1
      obtain ⟨hx, hy, hw, hh⟩ := h2
      have hfull : boundingRect c = ⟨0, 0, sz.width, sz.height⟩ := by
        cases hb : boundingRect c
        rw [hb] at hx hy hw hh
        simp_all
      simp only [decide_eq_true_eq]
      exact ⟨fun ha => ⟨h1.1, h1.2, fun _ => ha⟩, fun hcon => hcon.2.2 hfull⟩
    · push_neg at h1
      simp only [true_iff]
      refine ⟨h1.1, h1.2, fun hfull => absurd ?_ h2⟩
      rw [hfull]
      exact ⟨rfl, rfl, rfl, rfl⟩
  · unfold findDocumentContours
    dsimp only
    by_cases h : contours.isEmpty
    · rw [if_pos h]
      have he : contours = [] := List.isEmpty_iff.mp h
      subst he
      simp
    · rw [if_neg h]
      by_cases hk : (contours.filter (contourKeep s sz)).isEmpty
      · rw [if_pos hk]
        simp [List.isEmpty_iff.mp hk]
      · rw [if_neg hk]
        constructor
        · intro hc
          exact absurd hc (by simp)
        · intro hc
          exact absurd (List.isEmpty_iff.mpr hc) hk
  · intro kept hk
    unfold findDocumentContours at hk
    dsimp only at hk
    by_cases h : contours.isEmpty
    · rw [if_pos h] at hk
      exact absurd hk (by simp)
    · rw [if_neg h] at hk
      by_cases hke : (contours.filter (contourKeep s sz)).isEmpty
      · rw [if_pos hke] at hk
        exact absurd hk (by simp)
      · rw [if_neg hke] at hk
        cases hk
        exact ⟨rfl, fun hc => hke (List.isEmpty_iff.mpr hc)⟩

/-! ## C2 -/

theorem aspect_if_eq_max (ar t tol : ℚ) (ht : 0 < t) (htol : 0 < tol) :
    (if |ar - t| / t ≤ tol then 1 - |ar - t| / t / tol else 0)
      = max 0 (1 - |ar - t| / (t * tol)) := by
  have hd : |ar - t| / t / tol = |ar - t| / (t * tol) := div_div _ _ _
  split_ifs with h
  · rw [max_eq_right, hd]
    rw [← hd]
    have h1 : |ar - t| / t / tol ≤ 1 := (div_le_one htol).mpr h
    linarith
  · push_neg at h
    have h1 : 1 < |ar - t| / (t * tol) := by
      rw [← hd]
      exact (one_lt_div htol).mpr h
    rw [max_eq_left (by linarith)]

theorem shape_if_eq (n : ℕ) :
    (if n = 4 then (1 : ℚ) else if 4 ≤ n ∧ n ≤ 8 then 0.8
      else if 8 < n ∧ n ≤ 12 then 0.5 else 0)
    = (if n = 4 then 1 else if 4 ≤ n ∧ n ≤ 8 then 0.8
      else if 9 ≤ n ∧ n ≤ 12 then 0.5 else 0) := by
  split_ifs <;> first | rfl | omega

theorem weighted_sum_le_one (a b c d : ℚ) (ha : a ≤ 1) (hb : b ≤ 1) (hc : c ≤ 1)
    (hd : d ≤ 1) : a * 0.25 + b * 0.4 + c * 0.15 + d * 0.2 ≤ 1 := by
  nlinarith

theorem weighted_sum_nonneg (a b c d : ℚ) (ha : 0 ≤ a) (hb : 0 ≤ b) (hc : 0 ≤ c)
    (hd : 0 ≤ d) : 0 ≤ a * 0.25 + b * 0.4 + c * 0.15 + d * 0.2 := by
  nlinarith

/-- C2 counterexample: calculateDocumentScore is not the claimed weighted
sum on every candidate contour — a triangle (3 vertices) with a healthy
area ratio scores 0 via the early return, while the claimed formula gives
a strictly positive value (its shape term is 0 but its area, aspect and
centredness terms are not). -/
theorem C2_counterexample :
    calculateDocumentScore idPrims isoDefault ⟨1000, 1000⟩
        [((100 : ℤ), (100 : ℤ)), (500, 100), (300, 400)] = 0 ∧
    specScore idPrims 1.586 0.4 ⟨1000, 1000⟩
        [((100 : ℤ), (100 : ℤ)), (500, 100), (300, 400)] ≠ 0 := by
  constructor
  · norm_num [calculateDocumentScore]
  · norm_num [specScore, contourArea, shoelace2, shoelaceAux, cross2, boundingRect,
      idPrims, min_def, max_def, abs]

/-- C2 amended: for every contour with at least 4 vertices (and the ID-1
target ratio 1.586 with a positive tolerance) calculateDocumentScore
equals the spec's weighted sum 0.25·area + 0.40·aspect + 0.15·shape +
0.20·centredness with the documented sub-score tables, and the total
never exceeds 1.0; contours with fewer than 4 vertices score 0 instead
of the formula's value. -/
theorem C2_score_formula (P : Prims) (s : ISOParams) (sz : Size) (c : Contour)
    (h4 : 4 ≤ c.length) (ht : s.target_aspect_ratio_ = 1.586)
    (htol : 0 < s.aspect_ratio_tolerance_) :
    calculateDocumentScore P s sz c
        = specScore P 1.586 s.aspect_ratio_tolerance_ sz c ∧
    (0 ≤ P.distRatioOf c sz → calculateDocumentScore P s sz c ≤ 1) := by
  constructor
  · unfold calculateDocumentScore specScore
    dsimp only
    rw [if_neg (not_lt.mpr h4), ht]
    rw [aspect_if_eq_max _ _ _ (by norm_num) htol, shape_if_eq]
    ring
  · intro hr
    unfold calculateDocumentScore
    dsimp only
    rw [if_neg (not_lt.mpr h4), ht]
    apply weighted_sum_le_one
    · split_ifs <;> norm_num
    · split_ifs with h
      · have hnn : (0 : ℚ) ≤
            |(((boundingRect c).width : ℚ)) / (((boundingRect c).height : ℚ)) - 1.586| / 1.586 :=
          div_nonneg (abs_nonneg _) (by norm_num)
        have := div_nonneg hnn htol.le
        linarith
      · norm_num
    · split_ifs <;> norm_num
    · linarith

/-- C2 witness: the amended theorem applied to a concrete centred
rectangle of 4 vertices in a 1000×1000 image. -/
theorem C2_witness :
    calculateDocumentScore idPrims isoDefault ⟨1000, 1000⟩
        [((200 : ℤ), (200 : ℤ)), (800, 200), (800, 800), (200, 800)]
      = specScore idPrims 1.586 isoDefault.aspect_ratio_tolerance_ ⟨1000, 1000⟩
        [((200 : ℤ), (200 : ℤ)), (800, 200), (800, 800), (200, 800)] ∧
    (0 ≤ idPrims.distRatioOf
        [((200 : ℤ), (200 : ℤ)), (800, 200), (800, 800), (200, 800)] ⟨1000, 1000⟩ →
      calculateDocumentScore idPrims isoDefault ⟨1000, 1000⟩
        [((200 : ℤ), (200 : ℤ)), (800, 200), (800, 800), (200, 800)] ≤ 1) :=
  C2_score_formula idPrims isoDefault ⟨1000, 1000⟩
    [((200 : ℤ), (200 : ℤ)), (800, 200), (800, 800), (200, 800)]
    (by norm_num) rfl (by norm_num [isoDefault])

/-! ## C3 -/

theorem le_foldl_max (l : List ℚ) : ∀ b : ℚ, b ≤ l.foldl max b := by
  induction l with
  | nil => intro b; simp
  | cons x xs ih => intro b; exact le_trans (le_max_left b x) (ih (max b x))

theorem elem_le_foldl_max (l : List ℚ) : ∀ b x : ℚ, x ∈ l → x ≤ l.foldl max b := by
  induction l with
  | nil => intro b x hx; exact absurd hx (by simp)
  | cons y ys ih =>
    intro b x hx
    rcases List.mem_cons.mp hx with h | h
    · subst h
      exact le_trans (le_max_right b x) (le_foldl_max ys (max b x))
    · exact ih (max b y) x h

theorem foldl_max_eq_init (l : List ℚ) : ∀ b : ℚ, (∀ x ∈ l, x ≤ b) → l.foldl max b = b := by
  induction l with
  | nil => intro b _; rfl
  | cons y ys ih =>
    intro b h
    have hy : max b y = b := max_eq_left (h y (by simp))
    rw [List.foldl_cons, hy]
    exact ih b fun x hx => h x (by simp [hx])

theorem bestFold_fst (P : Prims) (s : ISOParams) (sz : Size) :
    ∀ (cs : List Contour) (b : ℚ) (w : Option Contour),
      (bestFold P s sz cs (b, w)).1
        = ((cs.map fun c => calculateDocumentScore P s sz (approxOf P s c)).foldl max b) := by
  intro cs
  induction cs with
  | nil => intro b w; rfl
  | cons c cs ih =>
    intro b w
    show (bestFold P s sz (c :: cs) (b, w)).1 = _
    rw [bestFold]
    dsimp only
    split_ifs with h
    · rw [ih]
      simp [max_eq_right h.le]
    · rw [ih]
      simp [max_eq_left (not_lt.mp h)]

theorem bestFold_acc_score (P : Prims) (s : ISOParams) (sz : Size) :
    ∀ (cs : List Contour) (b : ℚ) (w : Option Contour),
      (∀ x, w = some x → b = calculateDocumentScore P s sz x) →
      ∀ y, (bestFold P s sz cs (b, w)).2 = some y →
        (bestFold P s sz cs (b, w)).1 = calculateDocumentScore P s sz y := by
  intro cs
  induction cs with
  | nil =>
    intro b w hw y hy
    exact hw y hy
  | cons c cs ih =>
    intro b w hw y hy
    rw [bestFold] at hy ⊢
    dsimp only at hy ⊢
    split_ifs at hy ⊢ with h
    · exact ih _ _ (fun x hx => by cases hx; rfl) y hy
    · exact ih _ _ hw y hy

theorem bestFold_no_update (P : Prims) (s : ISOParams) (sz : Size) :
    ∀ (cs : List Contour) (b : ℚ) (w : Option Contour),
      (∀ x ∈ cs, calculateDocumentScore P s sz (approxOf P s x) ≤ b) →
      bestFold P s sz cs (b, w) = (b, w) := by
  intro cs
  induction cs with
  | nil => intro b w _; rfl
  | cons c cs ih =>
    intro b w h
    rw [bestFold]
    dsimp only
    rw [if_neg (not_lt.mpr (h c (by simp)))]
    exact ih b w fun x hx => h x (by simp [hx])

theorem bestFold_argmax (P : Prims) (s : ISOParams) (sz : Size) :
    ∀ (cs : List Contour) (b : ℚ) (w : Option Contour),
      b < (bestFold P s sz cs (b, w)).1 →
      ∃ c₀ ∈ cs,
        cs.find? (fun x => decide ((bestFold P s sz cs (b, w)).1
            ≤ calculateDocumentScore P s sz (approxOf P s x))) = some c₀ ∧
        (bestFold P s sz cs (b, w)).2 = some (approxOf P s c₀) ∧
        calculateDocumentScore P s sz (approxOf P s c₀)
          = (bestFold P s sz cs (b, w)).1 := by
  intro cs
  induction cs with
  | nil =>
    intro b w hb
    exact absurd hb (lt_irrefl b)
  | cons c cs ih =>
    intro b w hb
    by_cases hbs : b < calculateDocumentScore P s sz (approxOf P s c)
    · rw [bestFold] at hb ⊢
      dsimp only at hb ⊢
      rw [if_pos hbs] at hb ⊢
      by_cases hs : calculateDocumentScore P s sz (approxOf P s c)
          < (bestFold P s sz cs
              (calculateDocumentScore P s sz (approxOf P s c),
               some (approxOf P s c))).1
      · obtain ⟨c₀, hmem, hfind, hsnd, hsc⟩ := ih _ _ hs
        refine ⟨c₀, by simp [hmem], ?_, hsnd, hsc⟩
        rw [List.find?_cons_of_neg _ (by simp; exact hs), hfind]
      · push_neg at hs
        have hge := bestFold_fst P s sz cs
          (calculateDocumentScore P s sz (approxOf P s c)) (some (approxOf P s c))
        have hle : calculateDocumentScore P s sz (approxOf P s c)
            ≤ (bestFold P s sz cs
                (calculateDocumentScore P s sz (approxOf P s c),
                 some (approxOf P s c))).1 := by
          rw [hge]
          exact le_foldl_max _ _
        have heq : (bestFold P s sz cs
            (calculateDocumentScore P s sz (approxOf P s c),
             some (approxOf P s c))).1
            = calculateDocumentScore P s sz (approxOf P s c) := le_antisymm hs hle
        have hall : ∀ x ∈ cs, calculateDocumentScore P s sz (approxOf P s x)
            ≤ calculateDocumentScore P s sz (approxOf P s c) := by
          intro x hx
          have hx' : calculateDocumentScore P s sz (approxOf P s x)
              ≤ (bestFold P s sz cs
                  (calculateDocumentScore P s sz (approxOf P s c),
                   some (approxOf P s c))).1 := by
            rw [hge]
            exact elem_le_foldl_max _ _ _ (List.mem_map_of_mem _ hx)
          linarith [heq ▸ hx']
        have hnu := bestFold_no_update P s sz cs _ (some (approxOf P s c)) hall
        rw [hnu]
        refine ⟨c, by simp, ?_, rfl, rfl⟩
        exact List.find?_cons_of_pos _ (by simp)
    · rw [bestFold] at hb ⊢
      dsimp only at hb ⊢
      rw [if_neg hbs] at hb ⊢
      obtain ⟨c₀, hmem, hfind, hsnd, hsc⟩ := ih _ _ hb
      refine ⟨c₀, by simp [hmem], ?_, hsnd, hsc⟩
      rw [List.find?_cons_of_neg _ ?_, hfind]
      simp only [decide_eq_true_eq, not_le]
      push_neg at hbs
      calc calculateDocumentScore P s sz (approxOf P s c) ≤ b := hbs
        _ < (bestFold P s sz cs (b, w)).1 := hb

/-- C3: findBestDocumentContour succeeds exactly when the highest
score over the (approximated) candidates is strictly greater than 0.1;
on success the returned score is that maximum, it bounds every
candidate's score, and the winning contour is the approximation of the
first candidate attaining the maximum (later candidates replace the
incumbent only on a strictly greater score, so ties keep the first). -/
theorem C3_best_candidate_selection (P : Prims) (s : ISOParams) (sz : Size)
    (cs : List Contour) (hne : cs ≠ []) :
    ((findBestDocumentContour P s sz cs).isSome ↔ 0.1 < maxScore P s sz cs) ∧
    (∀ w bs, findBestDocumentContour P s sz cs = some (w, bs) →
      bs = maxScore P s sz cs ∧
      (∀ c ∈ cs, calculateDocumentScore P s sz (approxOf P s c) ≤ bs) ∧
      ∃ c₀ ∈ cs,
        cs.find? (fun x =>
            decide (bs ≤ calculateDocumentScore P s sz (approxOf P s x))) = some c₀ ∧
        w = approxOf P s c₀ ∧
        calculateDocumentScore P s sz (approxOf P s c₀) = bs) := by
  have hfst : (bestFold P s sz cs (0, none)).1 = maxScore P s sz cs :=
    bestFold_fst P s sz cs 0 none
  constructor
  · constructor
    · intro hsome
      unfold findBestDocumentContour at hsome
      dsimp only at hsome
      rcases hr : (bestFold P s sz cs (0, none)).2 with _ | y
      · rw [hr] at hsome
        simp at hsome
      · rw [hr] at hsome
        split_ifs at hsome with h
        · rw [← hfst]
          exact h
        · simp at hsome
    · intro h
      have h0 : (0 : ℚ) < (bestFold P s sz cs (0, none)).1 := by
        rw [hfst]
        linarith
      obtain ⟨c₀, _, _, hsnd, _⟩ := bestFold_argmax P s sz cs 0 none h0
      unfold findBestDocumentContour
      dsimp only
      rw [hsnd]
      dsimp only
      rw [if_pos (by rw [hfst]; exact h)]
      rfl
  · intro w bs hw
    unfold findBestDocumentContour at hw
    dsimp only at hw
    rcases hr : (bestFold P s sz cs (0, none)).2 with _ | y
    · rw [hr] at hw
      simp at hw
    · rw [hr] at hw
      split_ifs at hw with h
      · cases hw
        refine ⟨hfst, ?_, ?_⟩
        · intro c hc
          rw [hfst]
          exact elem_le_foldl_max _ _ _ (List.mem_map_of_mem _ hc)
        · have h0 : (0 : ℚ) < (bestFold P s sz cs (0, none)).1 := by linarith
          obtain ⟨c₀, hmem, hfind, hsnd, hsc⟩ := bestFold_argmax P s sz cs 0 none h0
          rw [hr] at hsnd
          cases hsnd
          exact ⟨c₀, hmem, hfind, rfl, hsc⟩

/-- C3 witness: the theorem applied to a concrete single-candidate list
(one degenerate one-point contour, scoring 0, so the success test is
false on both sides of the iff). -/
theorem C3_witness :
    ((findBestDocumentContour idPrims isoDefault ⟨10, 10⟩
        [[((0 : ℤ), (0 : ℤ))]]).isSome
      ↔ 0.1 < maxScore idPrims isoDefault ⟨10, 10⟩ [[((0 : ℤ), (0 : ℤ))]]) ∧
    (∀ w bs, findBestDocumentContour idPrims isoDefault ⟨10, 10⟩
        [[((0 : ℤ), (0 : ℤ))]] = some (w, bs) →
      bs = maxScore idPrims isoDefault ⟨10, 10⟩ [[((0 : ℤ), (0 : ℤ))]] ∧
      (∀ c ∈ [[((0 : ℤ), (0 : ℤ))]],
        calculateDocumentScore idPrims isoDefault ⟨10, 10⟩
          (approxOf idPrims isoDefault c) ≤ bs) ∧
      ∃ c₀ ∈ [[((0 : ℤ), (0 : ℤ))]],
        [[((0 : ℤ), (0 : ℤ))]].find? (fun x =>
            decide (bs ≤ calculateDocumentScore idPrims isoDefault ⟨10, 10⟩
              (approxOf idPrims isoDefault x))) = some c₀ ∧
        w = approxOf idPrims isoDefault c₀ ∧
        calculateDocumentScore idPrims isoDefault ⟨10, 10⟩
          (approxOf idPrims isoDefault c₀) = bs) :=
  C3_best_candidate_selection idPrims isoDefault ⟨10, 10⟩ [[((0 : ℤ), (0 : ℤ))]]
    (by simp)

/-! ## C7 -/

/-- The strict angle order: key strictly less. -/
def angLt (c p q : Point) : Prop := angKey (p - c) < angKey (q - c)

instance (c : Point) : IsTotal Point (angLe c) :=
  ⟨fun a b => le_total (angKey (a - c)) (angKey (b - c))⟩

instance (c : Point) : IsTrans Point (angLe c) :=
  ⟨fun _ _ _ h1 h2 => le_trans h1 h2⟩

theorem angKey_eq_iff (v w : Point) : angKey v = angKey w ↔ angKeyPair v = angKeyPair w := by
  unfold angKey
  exact toLex_inj

theorem sorted_angLe_to_angLt (c : Point) (l : List Point)
    (hs : List.Sorted (angLe c) l)
    (hd : l.Pairwise fun p q => angKeyPair (p - c) ≠ angKeyPair (q - c)) :
    List.Sorted (angLt c) l := by
  have hcomb := List.Pairwise.and hs hd
  exact hcomb.imp fun h =>
    lt_of_le_of_ne h.1 fun he => h.2 ((angKey_eq_iff _ _).mp he)

theorem insertionSort_angle_eq (c : Point) (l₁ l₂ : List Point) (hp : l₁.Perm l₂)
    (hd : l₁.Pairwise fun p q => angKeyPair (p - c) ≠ angKeyPair (q - c)) :
    l₁.insertionSort (angLe c) = l₂.insertionSort (angLe c) := by
  have hsymm : ∀ {x y : Point},
      (fun p q => angKeyPair (p - c) ≠ angKeyPair (q - c)) x y →
      (fun p q => angKeyPair (p - c) ≠ angKeyPair (q - c)) y x := fun h => Ne.symm h
  have hd₂ : l₂.Pairwise fun p q => angKeyPair (p - c) ≠ angKeyPair (q - c) :=
    (hp.pairwise_iff hsymm).mp hd
  have hd₁' := ((List.perm_insertionSort (angLe c) l₁).pairwise_iff hsymm).mpr hd
  have hd₂' := ((List.perm_insertionSort (angLe c) l₂).pairwise_iff hsymm).mpr hd₂
  have hs₁ := sorted_angLe_to_angLt c _ (List.sorted_insertionSort (angLe c) l₁) hd₁'
  have hs₂ := sorted_angLe_to_angLt c _ (List.sorted_insertionSort (angLe c) l₂) hd₂'
  have hperm : (l₁.insertionSort (angLe c)).Perm (l₂.insertionSort (angLe c)) :=
    (List.perm_insertionSort _ l₁).trans (hp.trans (List.perm_insertionSort _ l₂).symm)
  haveI : IsAntisymm Point (angLt c) := ⟨fun _ _ h1 h2 => absurd h2 (lt_asymm h1)⟩
  exact List.eq_of_perm_of_sorted hperm hs₁ hs₂

theorem argminIdx_lt (l : List Point) (h : l ≠ []) : argminIdx l < l.length := by
  induction l with
  | nil => exact absurd rfl h
  | cons p tail ih =>
    cases tail with
    | nil => simp [argminIdx]
    | cons q r =>
      simp only [argminIdx]
      split_ifs
      · have := ih (by simp)
        simpa using Nat.succ_lt_succ this
      · simp

theorem argminIdx_min (l : List Point) :
    ∀ p ∈ l, distSq (l.getD (argminIdx l) ((0 : ℤ), (0 : ℤ))) ≤ distSq p := by
  induction l with
  | nil => intro p hp; exact absurd hp (by simp)
  | cons p tail ih =>
    cases tail with
    | nil =>
      intro x hx
      rcases List.mem_singleton.mp hx with h
      subst h
      simp [argminIdx]
    | cons q r =>
      intro x hx
      simp only [argminIdx]
      split_ifs with hcond
      · rw [List.getD_cons_succ]
        rcases List.mem_cons.mp hx with h | h
        · subst h
          exact hcond.le
        · exact ih x h
      · rw [List.getD_cons_zero]
        rcases List.mem_cons.mp hx with h | h
        · subst h
          exact le_refl _
        · exact le_trans (not_lt.mp hcond) (ih x h)

theorem getD_zero_rotate_argmin (l : List Point) (h : l ≠ []) :
    (l.rotate (argminIdx l)).getD 0 ((0 : ℤ), (0 : ℤ))
      = l.getD (argminIdx l) ((0 : ℤ), (0 : ℤ)) := by
  have hidx := argminIdx_lt l h
  have h0 : 0 < (l.rotate (argminIdx l)).length := by
    rw [List.length_rotate]
    exact List.length_pos.mpr h
  rw [List.getD_eq_getElem _ _ h0, List.getD_eq_getElem _ _ hidx]
  have hget := List.get_rotate l (argminIdx l) ⟨0, h0⟩
  simp only [List.get_eq_getElem, Nat.zero_add, Nat.mod_eq_of_lt hidx] at hget
  exact hget

/-- C7: sortCornerPoints is permutation-invariant on 4-point inputs whose
angles from the (integer) centroid are pairwise distinct — all 24 input
orders give the identical output — and the first output point is one at
minimal distance from the image origin. -/
theorem C7_corner_order_invariance (l₁ l₂ : List Point) (hp : l₁.Perm l₂)
    (h4 : l₁.length = 4)
    (hd : l₁.Pairwise fun p q =>
      angKeyPair (p - centroidOf l₁) ≠ angKeyPair (q - centroidOf l₁)) :
    sortCornerPoints l₁ = sortCornerPoints l₂ ∧
    (∀ p ∈ l₁, distSq ((sortCornerPoints l₁).getD 0 ((0 : ℤ), (0 : ℤ))) ≤ distSq p) := by
  have h4' : l₂.length = 4 := hp.length_eq ▸ h4
  have hc : centroidOf l₁ = centroidOf l₂ := by
    unfold centroidOf
    rw [(hp.map Prod.fst).sum_eq, (hp.map Prod.snd).sum_eq]
  have hsorteq : l₁.insertionSort (angLe (centroidOf l₁))
      = l₂.insertionSort (angLe (centroidOf l₂)) := by
    rw [← hc]
    exact insertionSort_angle_eq (centroidOf l₁) l₁ l₂ hp hd
  constructor
  · unfold sortCornerPoints
    rw [if_neg (by simp [h4]), if_neg (by simp [h4'])]
    dsimp only
    rw [hsorteq]
  · intro p hpmem
    unfold sortCornerPoints
    rw [if_neg (by simp [h4])]
    dsimp only
    have hlen : (l₁.insertionSort (angLe (centroidOf l₁))).length = 4 := by
      rw [(List.perm_insertionSort _ l₁).length_eq, h4]
    have hne : l₁.insertionSort (angLe (centroidOf l₁)) ≠ [] := by
      intro hcon
      rw [hcon] at hlen
      simp at hlen
    rw [getD_zero_rotate_argmin _ hne]
    have hmem : p ∈ l₁.insertionSort (angLe (centroidOf l₁)) :=
      (List.perm_insertionSort _ l₁).mem_iff.mpr hpmem
    exact argminIdx_min _ p hmem

/-- C7 witness: a concrete axis-aligned square fed in two different
orders, with pairwise-distinct angles from the centroid (5, 5). -/
theorem C7_witness :
    sortCornerPoints [((2 : ℤ), (2 : ℤ)), (8, 2), (8, 8), (2, 8)]
        = sortCornerPoints [((8 : ℤ), (8 : ℤ)), (2, 2), (2, 8), (8, 2)] ∧
    (∀ p ∈ [((2 : ℤ), (2 : ℤ)), (8, 2), (8, 8), (2, 8)],
      distSq ((sortCornerPoints
          [((2 : ℤ), (2 : ℤ)), (8, 2), (8, 8), (2, 8)]).getD 0 ((0 : ℤ), (0 : ℤ)))
        ≤ distSq p) := by
  have hc : centroidOf [((2 : ℤ), (2 : ℤ)), (8, 2), (8, 8), (2, 8)] = (5, 5) := by decide
  refine C7_corner_order_invariance _ _ (by decide) (by decide) ?_
  rw [hc]
  refine List.Pairwise.cons ?_ (List.Pairwise.cons ?_
    (List.Pairwise.cons ?_ (List.pairwise_singleton _ _)))
  · intro q hq
    fin_cases hq <;> norm_num [angKeyPair, Prod.ext_iff, Prod.mk_sub_mk]
  · intro q hq
    fin_cases hq <;> norm_num [angKeyPair, Prod.ext_iff, Prod.mk_sub_mk]
  · intro q hq
    fin_cases hq <;> norm_num [angKeyPair, Prod.ext_iff, Prod.mk_sub_mk]

/-! ## C1 helper lemmas -/

theorem foldl_choice_mem (g : Point → Point → Point)
    (hg : ∀ b q, g b q = b ∨ g b q = q) :
    ∀ (ps : List Point) (p : Point), ps.foldl g p = p ∨ ps.foldl g p ∈ ps := by
  intro ps
  induction ps with
  | nil => intro p; exact Or.inl rfl
  | cons q r ih =>
    intro p
    rw [List.foldl_cons]
    rcases ih (g p q) with h | h
    · rcases hg p q with hg' | hg'
      · exact Or.inl (h.trans hg')
      · exact Or.inr (by simp [h.trans hg'])
    · exact Or.inr (by simp [h])

theorem firstMinBy_mem (f : Point → ℤ) (p : Point) (ps : List Point) :
    firstMinBy f p ps ∈ p :: ps := by
  rcases foldl_choice_mem (fun b q => if f q < f b then q else b)
      (fun b q => by dsimp only; split_ifs <;> simp) ps p with h | h
  · rw [firstMinBy, h]; exact List.mem_cons_self _ _
  · exact List.mem_cons_of_mem _ h

theorem firstMaxBy_mem (f : Point → ℤ) (p : Point) (ps : List Point) :
    firstMaxBy f p ps ∈ p :: ps := by
  rcases foldl_choice_mem (fun b q => if f b < f q then q else b)
      (fun b q => by dsimp only; split_ifs <;> simp) ps p with h | h
  · rw [firstMaxBy, h]; exact List.mem_cons_self _ _
  · exact List.mem_cons_of_mem _ h

theorem dedupConsec_subset : ∀ (l : List Point), ∀ p ∈ dedupConsec l, p ∈ l := by
  intro l
  induction l using dedupConsec.induct with
  | case1 => intro p hp; exact absurd hp (by simp [dedupConsec])
  | case2 q => intro p hp; simpa [dedupConsec] using hp
  | case3 q r ih =>
    intro p hp
    rw [dedupConsec, if_pos rfl] at hp
    rcases List.mem_cons.mp (ih p hp) with h | h
    · simp [h]
    · simp [h]
  | case4 q q' r hne ih =>
    intro p hp
    rw [dedupConsec, if_neg hne] at hp
    rcases List.mem_cons.mp hp with h | h
    · simp [h]
    · simpa using Or.inr (ih p h)

theorem selectFourCorners_subset (points : List Point) :
    ∀ p ∈ selectFourCorners points, p ∈ points := by
  intro p hp
  unfold selectFourCorners at hp
  split_ifs at hp with h1
  · exact hp
  · cases points with
    | nil => exact absurd (by norm_num : ([] : List Point).length ≤ 4) h1
    | cons q ps =>
      dsimp only at hp
      have hsub : ∀ x ∈ dedupConsec (([firstMinBy Prod.fst q ps, firstMaxBy Prod.fst q ps,
          firstMinBy Prod.snd q ps, firstMaxBy Prod.snd q ps]).insertionSort
            (fun a b => lexLT a b ∨ a = b)), x ∈ q :: ps := by
        intro x hx
        have hx2 := dedupConsec_subset _ x hx
        have hx3 := (List.perm_insertionSort (fun a b => lexLT a b ∨ a = b) _).mem_iff.mp hx2
        simp only [List.mem_cons, List.not_mem_nil, or_false] at hx3
        rcases hx3 with h | h | h | h
        · rw [h]; exact firstMinBy_mem Prod.fst q ps
        · rw [h]; exact firstMaxBy_mem Prod.fst q ps
        · rw [h]; exact firstMinBy_mem Prod.snd q ps
        · rw [h]; exact firstMaxBy_mem Prod.snd q ps
      split_ifs at hp with h2
      · exact hsub p (List.take_subset _ _ hp)
      · exact hsub p hp

theorem sortCornerPoints_subset (l : List Point) :
    ∀ p ∈ sortCornerPoints l, p ∈ l := by
  intro p hp
  unfold sortCornerPoints at hp
  split_ifs at hp with h
  · exact hp
  · dsimp only at hp
    have h1 := List.mem_rotate.mp hp
    exact (List.perm_insertionSort _ _).mem_iff.mp h1

theorem sortCornerPoints_length (l : List Point) :
    (sortCornerPoints l).length = l.length := by
  unfold sortCornerPoints
  split_ifs with h
  · rfl
  · dsimp only
    rw [List.length_rotate, List.length_insertionSort]

theorem findCornerPoints_subset (P : Prims) (c : Contour)
    (hApprox : ∀ ε d, ∀ p ∈ P.approxPolyDP ε d, p ∈ d)
    (hHull : ∀ d, ∀ p ∈ P.convexHull d, p ∈ d) :
    ∀ p ∈ findCornerPoints P c, p ∈ c := by
  intro p hp
  unfold findCornerPoints at hp
  dsimp only at hp
  split_ifs at hp with h1 h2 h3
  · exact hp
  · exact hHull c p hp
  · exact hHull c p (hApprox _ _ p (selectFourCorners_subset _ p hp))
  · exact hHull c p (hApprox _ _ p hp)

/-- Sub-score bounds: the document score of any contour lies in [0, 1]
whenever the target ratio and tolerance are positive and the black-box
distance quotient is in [0, 1]. -/
theorem calculateDocumentScore_bounds (P : Prims) (s : ISOParams) (sz : Size)
    (c : Contour) (ht : 0 < s.target_aspect_ratio_)
    (htol : 0 < s.aspect_ratio_tolerance_)
    (hr0 : 0 ≤ P.distRatioOf c sz) (hr1 : P.distRatioOf c sz ≤ 1) :
    0 ≤ calculateDocumentScore P s sz c ∧ calculateDocumentScore P s sz c ≤ 1 := by
  unfold calculateDocumentScore
  by_cases h : c.length < 4
  · rw [if_pos h]
    norm_num
  · rw [if_neg h]
    dsimp only
    have haspect : ∀ d : ℚ, 0 ≤ d →
        (0 : ℚ) ≤ (if d ≤ s.aspect_ratio_tolerance_
            then 1 - d / s.aspect_ratio_tolerance_ else 0) ∧
        (if d ≤ s.aspect_ratio_tolerance_
            then 1 - d / s.aspect_ratio_tolerance_ else 0) ≤ 1 := by
      intro d hd
      split_ifs with hdt
      · have h1 : d / s.aspect_ratio_tolerance_ ≤ 1 := (div_le_one htol).mpr hdt
        have h2 : 0 ≤ d / s.aspect_ratio_tolerance_ := div_nonneg hd htol.le
        constructor <;> linarith
      · norm_num
    have hd0 : (0 : ℚ) ≤
        |((boundingRect c).width : ℚ) / ((boundingRect c).height : ℚ)
          - s.target_aspect_ratio_| / s.target_aspect_ratio_ :=
      div_nonneg (abs_nonneg _) ht.le
    obtain ⟨ha1, ha2⟩ := haspect _ hd0
    have harea : ∀ x : ℚ,
        (0 : ℚ) ≤ (if (0.002 : ℚ) ≤ x ∧ x ≤ 0.99 then
            if (0.01 : ℚ) ≤ x ∧ x ≤ 0.7 then (1 : ℚ)
            else if (0.85 : ℚ) < x then 0.9 else 0.5
          else 0) ∧
        (if (0.002 : ℚ) ≤ x ∧ x ≤ 0.99 then
            if (0.01 : ℚ) ≤ x ∧ x ≤ 0.7 then (1 : ℚ)
            else if (0.85 : ℚ) < x then 0.9 else 0.5
          else 0) ≤ 1 := by
      intro x
      constructor <;> split_ifs <;> norm_num
    have hshape : ∀ n : ℕ,
        (0 : ℚ) ≤ (if n = 4 then (1 : ℚ) else if 4 ≤ n ∧ n ≤ 8 then 0.8
          else if 8 < n ∧ n ≤ 12 then 0.5 else 0) ∧
        (if n = 4 then (1 : ℚ) else if 4 ≤ n ∧ n ≤ 8 then 0.8
          else if 8 < n ∧ n ≤ 12 then 0.5 else 0) ≤ 1 := by
      intro n
      constructor <;> split_ifs <;> norm_num
    constructor
    · exact weighted_sum_nonneg _ _ _ _ (harea _).1 ha1 (hshape _).1 (by linarith)
    · exact weighted_sum_le_one _ _ _ _ (harea _).2 ha2 (hshape _).2 (by linarith)

theorem adapt_tol_pos (sz : Size) (s : ISOParams) :
    0 < (adaptParametersForImageSize sz s).aspect_ratio_tolerance_ := by
  unfold adaptParametersForImageSize
  dsimp only
  split_ifs <;> norm_num

theorem adapt_target_eq (sz : Size) (s : ISOParams) :
    (adaptParametersForImageSize sz s).target_aspect_ratio_ = s.target_aspect_ratio_ := by
  unfold adaptParametersForImageSize
  dsimp only
  split_ifs <;> rfl

theorem bestFold_winner_mem (P : Prims) (s : ISOParams) (sz : Size) :
    ∀ (cs : List Contour) (b : ℚ) (w0 : Option Contour) (w : Contour),
      (bestFold P s sz cs (b, w0)).2 = some w →
      w0 = some w ∨ ∃ c ∈ cs, w = approxOf P s c := by
  intro cs
  induction cs with
  | nil => intro b w0 w hw; exact Or.inl hw
  | cons c cs ih =>
    intro b w0 w hw
    rw [bestFold] at hw
    dsimp only at hw
    split_ifs at hw with h
    · rcases ih _ _ _ hw with h1 | h1
      · cases h1
        exact Or.inr ⟨c, by simp, rfl⟩
      · obtain ⟨c', hc', he⟩ := h1
        exact Or.inr ⟨c', by simp [hc'], he⟩
    · rcases ih _ _ _ hw with h1 | h1
      · exact Or.inl h1
      · obtain ⟨c', hc', he⟩ := h1
        exact Or.inr ⟨c', by simp [hc'], he⟩

theorem truncQ_eq_floor (q : ℚ) (h : 0 ≤ q) : truncQ q = ⌊q⌋ := by
  unfold truncQ
  rw [Rat.floor_def]
  exact Int.tdiv_eq_ediv (Rat.num_nonneg.mpr h) (by positivity)

theorem truncQ_bounds (q : ℚ) (n : ℤ) (h0 : 0 ≤ q) (hn : q < (n : ℚ)) :
    0 ≤ truncQ q ∧ truncQ q ≤ n - 1 := by
  rw [truncQ_eq_floor q h0]
  exact ⟨Int.floor_nonneg.mpr h0, by
    have := Int.floor_lt.mpr hn
    omega⟩

theorem scaleFactor_ne_one (sz : Size) (h : 1200 < sz.width) : scaleFactor sz ≠ 1 := by
  unfold scaleFactor
  rw [if_pos h]
  have hw : (0 : ℚ) < (sz.width : ℚ) := by
    have : (0 : ℤ) < sz.width := by omega
    exact_mod_cast this
  have : (1200 : ℚ) / (sz.width : ℚ) < 1 := by
    rw [div_lt_one hw]
    exact_mod_cast h
  linarith

theorem workingSize_width_eq (sz : Size) (h : 1200 < sz.width) :
    (workingSize sz).width = 1200 := by
  unfold workingSize
  rw [if_pos h]
  have hne : (sz.width : ℚ) ≠ 0 := by
    have : (0 : ℤ) < sz.width := by omega
    positivity
  show cvRound ((sz.width : ℚ) * ((1200 : ℚ) / (sz.width : ℚ))) = 1200
  rw [mul_div_cancel₀ _ hne]
  exact_mod_cast cvRound_intCast 1200

/-- Scaling a working-image point back to original pixel space keeps it
inside the original image. -/
theorem scaleBack_inImage (sz : Size) (h : 1200 < sz.width) (hh : 0 < sz.height)
    (p : Point) (hp : inImage p (workingSize sz)) :
    inImage (scaleBack (scaleFactor sz) p) sz := by
  obtain ⟨hx0, hx1, hy0, hy1⟩ := hp
  rw [workingSize_width_eq sz h] at hx1
  have hwq : (0 : ℚ) < (sz.width : ℚ) := by
    have h0 : (0 : ℤ) < sz.width := by omega
    exact_mod_cast h0
  have hhq : (0 : ℚ) < (sz.height : ℚ) := by exact_mod_cast hh
  have hsf : scaleFactor sz = 1200 / (sz.width : ℚ) := by
    unfold scaleFactor
    rw [if_pos h]
  have hdiv : ∀ a : ℤ, ((a : ℚ)) / (1200 / (sz.width : ℚ))
      = (a : ℚ) * (sz.width : ℚ) / 1200 := by
    intro a
    field_simp
  have hx0' : (0 : ℚ) ≤ (p.1 : ℚ) := by exact_mod_cast hx0
  have hy0' : (0 : ℚ) ≤ (p.2 : ℚ) := by exact_mod_cast hy0
  have hxq : (p.1 : ℚ) * (sz.width : ℚ) / 1200 < (sz.width : ℚ) := by
    have h1 : (p.1 : ℚ) ≤ 1199 := by exact_mod_cast (by omega : p.1 ≤ (1199 : ℤ))
    rw [div_lt_iff (by norm_num : (0 : ℚ) < 1200)]
    nlinarith
  have hyq : (p.2 : ℚ) * (sz.width : ℚ) / 1200 < (sz.height : ℚ) := by
    have hy1' : (p.2 : ℚ) ≤ (sz.height : ℚ) * (1200 / (sz.width : ℚ)) - 1 / 2 := by
      have hcv := cvRound_le ((sz.height : ℚ) * ((1200 : ℚ) / (sz.width : ℚ)))
      have hy1'' : (p.2 : ℚ) ≤ ((workingSize sz).height : ℚ) - 1 := by
        have hcast : (p.2 : ℚ) + 1 ≤ ((workingSize sz).height : ℚ) := by
          exact_mod_cast (by omega : p.2 + 1 ≤ (workingSize sz).height)
        linarith
      have hws : (workingSize sz).height
          = cvRound ((sz.height : ℚ) * ((1200 : ℚ) / (sz.width : ℚ))) := by
        unfold workingSize
        rw [if_pos h]
      rw [hws] at hy1''
      linarith
    have hkey : ((p.2 : ℚ) + 1 / 2) * (sz.width : ℚ) ≤ 1200 * (sz.height : ℚ) := by
      have hmul := mul_le_mul_of_nonneg_right hy1' hwq.le
      have hcancel : ((sz.height : ℚ) * (1200 / (sz.width : ℚ)) - 1 / 2) * (sz.width : ℚ)
          = 1200 * (sz.height : ℚ) - (sz.width : ℚ) / 2 := by
        field_simp
        ring
      rw [hcancel] at hmul
      nlinarith
    rw [div_lt_iff (by norm_num : (0 : ℚ) < 1200)]
    nlinarith
  unfold scaleBack
  rw [hsf, hdiv, hdiv]
  obtain ⟨hxb0, hxb1⟩ := truncQ_bounds _ sz.width (by positivity) hxq
  obtain ⟨hyb0, hyb1⟩ := truncQ_bounds _ sz.height (by positivity) hyq
  exact ⟨hxb0, hxb1, hyb0, hyb1⟩

/-- The range invariant C1 asserts of a returned DocumentBounds. -/
def boundsInRange (b : DocumentBounds) : Prop :=
  0 ≤ b.x1 ∧ b.x1 ≤ 1 ∧ 0 ≤ b.y1 ∧ b.y1 ≤ 1 ∧
  0 ≤ b.x2 ∧ b.x2 ≤ 1 ∧ 0 ≤ b.y2 ∧ b.y2 ≤ 1 ∧
  0 ≤ b.x3 ∧ b.x3 ≤ 1 ∧ 0 ≤ b.y3 ∧ b.y3 ≤ 1 ∧
  0 ≤ b.x4 ∧ b.x4 ≤ 1 ∧ 0 ≤ b.y4 ∧ b.y4 ≤ 1 ∧
  0 ≤ b.confidence ∧ b.confidence ≤ 1

theorem findDocumentContours_sub (s : ISOParams) (sz : Size)
    (contours cs : List Contour)
    (h : findDocumentContours s sz contours = some cs) :
    ∀ x ∈ cs, x ∈ contours := by
  unfold findDocumentContours at h
  dsimp only at h
  split_ifs at h with h1 h2
  cases h
  exact fun x hx => List.mem_of_mem_filter hx

theorem findBestDocumentContour_winner (P : Prims) (s : ISOParams) (sz : Size)
    (cs : List Contour) (w : Contour) (bs : ℚ)
    (h : findBestDocumentContour P s sz cs = some (w, bs)) :
    ∃ c ∈ cs, w = approxOf P s c := by
  unfold findBestDocumentContour at h
  dsimp only at h
  rcases hr : (bestFold P s sz cs (0, none)).2 with _ | y
  · rw [hr] at h
    simp at h
  · rw [hr] at h
    split_ifs at h with h1
    · cases h
      rcases bestFold_winner_mem P s sz cs 0 none _ hr with h2 | h2
      · exact absurd h2 (by simp)
      · exact h2

theorem extractDocumentBounds_inRange (P : Prims) (s : ISOParams) (sz : Size)
    (c : Contour) (b : DocumentBounds)
    (hw : 0 < sz.width) (hh : 0 < sz.height)
    (hmem : ∀ p ∈ c, inImage p sz)
    (hApprox : ∀ ε d, ∀ p ∈ P.approxPolyDP ε d, p ∈ d)
    (hHull : ∀ d, ∀ p ∈ P.convexHull d, p ∈ d)
    (ht : 0 < s.target_aspect_ratio_) (htol : 0 < s.aspect_ratio_tolerance_)
    (hr0 : 0 ≤ P.distRatioOf c sz) (hr1 : P.distRatioOf c sz ≤ 1)
    (hx : extractDocumentBounds P s sz c = some b) :
    boundsInRange b := by
  unfold extractDocumentBounds at hx
  by_cases h1 : c.length < 4
  · rw [if_pos h1] at hx
    exact absurd hx (by simp)
  · rw [if_neg h1] at hx
    dsimp only at hx
    by_cases h2 : (if c.length = 4 then c else findCornerPoints P c).length ≠ 4
    · rw [if_pos h2] at hx
      exact absurd hx (by simp)
    · rw [if_neg h2] at hx
      push_neg at h2
      injection hx with hb
      subst hb
      have hcorners_sub : ∀ p ∈ (if c.length = 4 then c else findCornerPoints P c), p ∈ c := by
        split_ifs with h3
        · exact fun p hp => hp
        · exact findCornerPoints_subset P c hApprox hHull
      have hsc_sub : ∀ p ∈ sortCornerPoints
          (if c.length = 4 then c else findCornerPoints P c), p ∈ c :=
        fun p hp => hcorners_sub _ (sortCornerPoints_subset _ _ hp)
      have hsc_len : (sortCornerPoints
          (if c.length = 4 then c else findCornerPoints P c)).length = 4 := by
        rw [sortCornerPoints_length, h2]
      have hcoord : ∀ i : ℕ, i < 4 →
          inImage ((sortCornerPoints
            (if c.length = 4 then c else findCornerPoints P c)).getD i ((0 : ℤ), (0 : ℤ))) sz := by
        intro i hi
        have hmem' : (sortCornerPoints
            (if c.length = 4 then c else findCornerPoints P c)).getD i ((0 : ℤ), (0 : ℤ))
            ∈ sortCornerPoints (if c.length = 4 then c else findCornerPoints P c) := by
          rw [List.getD_eq_getElem _ _ (by rw [hsc_len]; exact hi)]
          exact List.getElem_mem _
        exact hmem _ (hsc_sub _ hmem')
      have hdivq : ∀ q : Point, inImage q sz →
          (0 ≤ (q.1 : ℚ) / (sz.width : ℚ) ∧ (q.1 : ℚ) / (sz.width : ℚ) ≤ 1) ∧
          (0 ≤ (q.2 : ℚ) / (sz.height : ℚ) ∧ (q.2 : ℚ) / (sz.height : ℚ) ≤ 1) := by
        intro q hq
        obtain ⟨hq1, hq2, hq3, hq4⟩ := hq
        have hwq : (0 : ℚ) < (sz.width : ℚ) := by exact_mod_cast hw
        have hhq : (0 : ℚ) < (sz.height : ℚ) := by exact_mod_cast hh
        refine ⟨⟨div_nonneg (by exact_mod_cast hq1) hwq.le, ?_⟩,
                ⟨div_nonneg (by exact_mod_cast hq3) hhq.le, ?_⟩⟩
        · rw [div_le_one hwq]
          exact_mod_cast (by omega : q.1 ≤ sz.width)
        · rw [div_le_one hhq]
          exact_mod_cast (by omega : q.2 ≤ sz.height)
      obtain ⟨⟨a0, a1⟩, ⟨a2, a3⟩⟩ := hdivq _ (hcoord 0 (by norm_num))
      obtain ⟨⟨b0, b1⟩, ⟨b2, b3⟩⟩ := hdivq _ (hcoord 1 (by norm_num))
      obtain ⟨⟨c0, c1⟩, ⟨c2, c3⟩⟩ := hdivq _ (hcoord 2 (by norm_num))
      obtain ⟨⟨d0, d1⟩, ⟨d2, d3⟩⟩ := hdivq _ (hcoord 3 (by norm_num))
      obtain ⟨e0, e1⟩ := calculateDocumentScore_bounds P s sz c ht htol hr0 hr1
      exact ⟨a0, a1, a2, a3, b0, b1, b2, b3, c0, c1, c2, c3, d0, d1, d2, d3, e0, e1⟩

/-- C1: on any non-empty image (positive dimensions), with the contour
list extracted from the working image and the black-box primitives
satisfying their geometric contracts (polygon approximation and convex
hull return vertex subsets, the enclosing-circle distance quotient of a
contour inside an image lies in [0, 1]), detectDocument either fails
(none, "no document found") or returns bounds whose four corners and
confidence all lie in [0, 1].  All divisors on the success path (image
width, height, area, scale factor) are positive, so the rational
arithmetic agrees with the C++ double arithmetic with no division by
zero. -/
theorem C1_detection_bounds_in_range (P : Prims) (s : ISOParams) (sz : Size)
    (contours : List Contour)
    (hw : 0 < sz.width) (hh : 0 < sz.height)
    (hmem : ∀ c ∈ contours, ∀ p ∈ c, inImage p (workingSize sz))
    (hApprox : ∀ ε d, ∀ p ∈ P.approxPolyDP ε d, p ∈ d)
    (hHull : ∀ d, ∀ p ∈ P.convexHull d, p ∈ d)
    (hDist : ∀ d s', (∀ p ∈ d, inImage p s') →
      0 ≤ P.distRatioOf d s' ∧ P.distRatioOf d s' ≤ 1)
    (ht : 0 < s.target_aspect_ratio_) :
    detectDocument P s sz contours = none ∨
    ∃ b, detectDocument P s sz contours = some b ∧ boundsInRange b := by
  unfold detectDocument
  rw [if_neg (by push_neg; omega)]
  dsimp only
  cases hfd : findDocumentContours (detectParams s sz) (workingSize sz) contours with
  | none => exact Or.inl rfl
  | some cs =>
    dsimp only
    cases hfb : findBestDocumentContour P (detectParams s sz) (workingSize sz) cs with
    | none => exact Or.inl rfl
    | some pr =>
      obtain ⟨best, bs⟩ := pr
      dsimp only
      obtain ⟨cw, hcw, hbest⟩ :=
        findBestDocumentContour_winner P (detectParams s sz) (workingSize sz) cs best bs hfb
      have hbest_pts : ∀ p ∈ best, inImage p (workingSize sz) := by
        intro p hp
        rw [hbest] at hp
        exact hmem cw (findDocumentContours_sub _ _ _ _ hfd cw hcw) p (hApprox _ _ p hp)
      have ht' : 0 < (detectParams s sz).target_aspect_ratio_ := by
        rw [detectParams, adapt_target_eq]
        exact ht
      have htol' : 0 < (detectParams s sz).aspect_ratio_tolerance_ := adapt_tol_pos _ _
      by_cases hsf : scaleFactor sz = 1
      · have hwle : ¬ 1200 < sz.width := fun hcon => scaleFactor_ne_one sz hcon hsf
        have hws : workingSize sz = sz := by
          unfold workingSize
          rw [if_neg hwle]
        rw [if_pos hsf]
        have hpts : ∀ p ∈ best, inImage p sz := by
          rw [← hws]
          exact hbest_pts
        obtain ⟨hr0, hr1⟩ := hDist best sz hpts
        cases hx : extractDocumentBounds P (detectParams s sz) sz best with
        | none => exact Or.inl rfl
        | some b =>
          exact Or.inr ⟨b, rfl, extractDocumentBounds_inRange P (detectParams s sz) sz best b
            hw hh hpts hApprox hHull ht' htol' hr0 hr1 hx⟩
      · have hwgt : 1200 < sz.width := by
          by_contra hcon
          exact hsf (by unfold scaleFactor; rw [if_neg hcon])
        rw [if_neg hsf]
        have hpts : ∀ p ∈ best.map (scaleBack (scaleFactor sz)), inImage p sz := by
          intro p hp
          obtain ⟨q, hq, hpq⟩ := List.mem_map.mp hp
          rw [← hpq]
          exact scaleBack_inImage sz hwgt hh q (hbest_pts q hq)
        obtain ⟨hr0, hr1⟩ := hDist _ sz hpts
        cases hx : extractDocumentBounds P (detectParams s sz) sz
            (best.map (scaleBack (scaleFactor sz))) with
        | none => exact Or.inl rfl
        | some b =>
          exact Or.inr ⟨b, rfl, extractDocumentBounds_inRange P (detectParams s sz) sz _ b
            hw hh hpts hApprox hHull ht' htol' hr0 hr1 hx⟩

/-- C1 witness: the theorem at a concrete 10×10 image whose edge map
yields no contours, so detection reports "no document found". -/
theorem C1_witness :
    detectDocument idPrims isoDefault ⟨10, 10⟩ [] = none ∨
    ∃ b, detectDocument idPrims isoDefault ⟨10, 10⟩ [] = some b ∧ boundsInRange b :=
  C1_detection_bounds_in_range idPrims isoDefault ⟨10, 10⟩ []
    (by norm_num) (by norm_num) (by simp)
    (fun _ _ _ h => h) (fun _ _ h => h)
    (fun _ _ _ => by norm_num [idPrims]) (by norm_num [isoDefault])

/-! ## C6 -/

theorem findBestDocumentContour_score (P : Prims) (s : ISOParams) (sz : Size)
    (cs : List Contour) (w : Contour) (bs : ℚ)
    (h : findBestDocumentContour P s sz cs = some (w, bs)) :
    bs = calculateDocumentScore P s sz w := by
  unfold findBestDocumentContour at h
  dsimp only at h
  rcases hr : (bestFold P s sz cs (0, none)).2 with _ | y
  · rw [hr] at h
    simp at h
  · rw [hr] at h
    split_ifs at h with h1
    · cases h
      exact bestFold_acc_score P s sz cs 0 none (fun x hx => by simp at hx) _ hr

/-- C6 amended: the confidence extractDocumentBounds attaches is
calculateDocumentScore recomputed on the (scaled-back) winning contour at
the original image size; when no downscale happened (width at most 1200,
so working image = input image and scale factor 1) this recomputation
reproduces exactly the winning score that was compared against the 0.1
floor. -/
theorem C6_confidence_recomputed_unscaled (P : Prims) (s : ISOParams)
    (sz : Size) (contours cs : List Contour) (w : Contour) (bs : ℚ)
    (b : DocumentBounds)
    (hsz : sz.width ≤ 1200) (hw : 0 < sz.width) (hh : 0 < sz.height)
    (hfd : findDocumentContours (detectParams s sz) (workingSize sz) contours = some cs)
    (hfb : findBestDocumentContour P (detectParams s sz) (workingSize sz) cs = some (w, bs))
    (hdet : detectDocument P s sz contours = some b) :
    b.confidence = bs := by
  have hws : workingSize sz = sz := by
    unfold workingSize
    rw [if_neg (not_lt.mpr hsz)]
  have hsf : scaleFactor sz = 1 := by
    unfold scaleFactor
    rw [if_neg (not_lt.mpr hsz)]
  have hbs : bs = calculateDocumentScore P (detectParams s sz) (workingSize sz) w :=
    findBestDocumentContour_score P (detectParams s sz) (workingSize sz) cs w bs hfb
  rw [hws] at hbs
  unfold detectDocument at hdet
  rw [if_neg (by push_neg; omega)] at hdet
  dsimp only at hdet
  rw [hfd] at hdet
  dsimp only at hdet
  rw [hfb] at hdet
  dsimp only at hdet
  rw [if_pos hsf] at hdet
  unfold extractDocumentBounds at hdet
  by_cases h1 : w.length < 4
  · rw [if_pos h1] at hdet
    exact absurd hdet (by simp)
  · rw [if_neg h1] at hdet
    dsimp only at hdet
    by_cases h2 : (if w.length = 4 then w else findCornerPoints P w).length ≠ 4
    · rw [if_pos h2] at hdet
      exact absurd hdet (by simp)
    · rw [if_neg h2] at hdet
      injection hdet with hb
      subst hb
      exact hbs.symm

theorem truncQ_intCast (n : ℤ) : truncQ ((n : ℚ)) = n := by
  unfold truncQ
  rw [Rat.num_intCast, Rat.den_intCast]
  norm_num [Int.tdiv_one]

theorem scaleBack_half (p : Point) : scaleBack (1 / 2) p = (2 * p.1, 2 * p.2) := by
  unfold scaleBack
  have h1 : ((p.1 : ℚ)) / (1 / 2) = (((2 * p.1 : ℤ)) : ℚ) := by push_cast; ring
  have h2 : ((p.2 : ℚ)) / (1 / 2) = (((2 * p.2 : ℤ)) : ℚ) := by push_cast; ring
  rw [h1, h2, truncQ_intCast, truncQ_intCast]

/-- The single (working-resolution) candidate contour of the C6
counterexample: an axis-aligned rectangle whose bounding box is
793×500 pixels — exactly the ID-1 target ratio 1.586, giving aspect
difference 0 and a perfect winning score of 1. -/
def cRect : Contour := [((204 : ℤ), (200 : ℤ)), (996, 200), (996, 699), (204, 699)]

/-- cRect scaled back to the original 2400×1800 pixel space (factor 2):
its bounding box is 1585×999 pixels, whose ratio is no longer exactly
1.586, so the recomputed confidence drops strictly below 1. -/
def dRect : Contour := [((408 : ℤ), (400 : ℤ)), (1992, 400), (1992, 1398), (408, 1398)]

theorem wsz2400 : workingSize ⟨2400, 1800⟩ = ⟨1200, 900⟩ := by
  unfold workingSize
  rw [if_pos (by norm_num)]
  dsimp only
  have h1 : (((2400 : ℤ) : ℚ)) * ((1200 : ℚ) / ((2400 : ℤ) : ℚ)) = ((1200 : ℤ) : ℚ) := by
    norm_num
  have h2 : (((1800 : ℤ) : ℚ)) * ((1200 : ℚ) / ((2400 : ℤ) : ℚ)) = ((900 : ℤ) : ℚ) := by
    norm_num
  rw [h1, h2, cvRound_intCast, cvRound_intCast]

theorem sf2400 : scaleFactor ⟨2400, 1800⟩ = 1 / 2 := by
  unfold scaleFactor
  rw [if_pos (by norm_num)]
  norm_num

theorem params2400 : detectParams isoDefault ⟨2400, 1800⟩
    = ⟨20, 60, 0.005, 0.85, 0.01, 1.586, 0.35⟩ := by
  rw [detectParams, wsz2400]
  norm_num [adaptParametersForImageSize, isoDefault, min_def, max_def]

theorem score_cRect_working :
    calculateDocumentScore idPrims ⟨20, 60, 0.005, 0.85, 0.01, 1.586, 0.35⟩
      ⟨1200, 900⟩ cRect = 1 := by
  unfold calculateDocumentScore
  rw [if_neg (by norm_num [cRect])]
  norm_num [cRect, contourArea, shoelace2, shoelaceAux, cross2, boundingRect,
    min_def, max_def, idPrims]

theorem ffd2400 : findDocumentContours ⟨20, 60, 0.005, 0.85, 0.01, 1.586, 0.35⟩
    ⟨1200, 900⟩ [cRect] = some [cRect] := by
  have hkeep : contourKeep ⟨20, 60, 0.005, 0.85, 0.01, 1.586, 0.35⟩ ⟨1200, 900⟩ cRect
      = true := by
    unfold contourKeep
    norm_num [cRect, contourArea, shoelace2, shoelaceAux, cross2, boundingRect,
      min_def, max_def]
  simp [findDocumentContours, hkeep]

theorem fbest2400 : findBestDocumentContour idPrims
    ⟨20, 60, 0.005, 0.85, 0.01, 1.586, 0.35⟩ ⟨1200, 900⟩ [cRect]
    = some (cRect, 1) := by
  have happrox : approxOf idPrims ⟨20, 60, 0.005, 0.85, 0.01, 1.586, 0.35⟩ cRect
      = cRect := rfl
  simp [findBestDocumentContour, bestFold, happrox, score_cRect_working]
  norm_num

theorem score_dRect :
    calculateDocumentScore idPrims ⟨20, 60, 0.005, 0.85, 0.01, 1.586, 0.35⟩
      ⟨2400, 1800⟩ dRect = 27715525 / 27727245 := by
  unfold calculateDocumentScore
  rw [if_neg (by norm_num [dRect])]
  norm_num [dRect, contourArea, shoelace2, shoelaceAux, cross2, boundingRect,
    min_def, max_def, idPrims]
  have habs : |(293 : ℚ) / 499500| = 293 / 499500 := abs_of_nonneg (by norm_num)
  rw [habs]
  norm_num

/-- C6 counterexample: on a 2400×1800 image holding the single candidate
cRect, the best-candidate selection compares the winning score 1 against
the 0.1 floor, but the confidence in the returned DocumentBounds is the
score recomputed on the scaled-back contour at original resolution,
27715525/27727245 ≠ 1.  The returned confidence is NOT the value that
was compared against the floor. -/
theorem C6_counterexample :
    findBestDocumentContour idPrims (detectParams isoDefault ⟨2400, 1800⟩)
        (workingSize ⟨2400, 1800⟩) [cRect] = some (cRect, 1) ∧
    (detectDocument idPrims isoDefault ⟨2400, 1800⟩ [cRect]).map
        DocumentBounds.confidence = some (27715525 / 27727245) ∧
    ((27715525 : ℚ) / 27727245) ≠ 1 := by
  refine ⟨by rw [params2400, wsz2400]; exact fbest2400, ?_, by norm_num⟩
  unfold detectDocument
  rw [if_neg (by push_neg; norm_num)]
  dsimp only
  rw [params2400, wsz2400, ffd2400]
  dsimp only
  rw [fbest2400]
  dsimp only
  rw [sf2400]
  rw [if_neg (by norm_num)]
  have hmap : List.map (scaleBack (1 / 2)) cRect = dRect := by
    simp only [cRect, dRect, List.map_cons, List.map_nil, scaleBack_half]
    norm_num
  rw [hmap]
  unfold extractDocumentBounds
  rw [if_neg (by norm_num [dRect])]
  dsimp only
  rw [if_pos (by norm_num [dRect] : dRect.length = 4)]
  rw [if_neg (by norm_num [dRect] : ¬ dRect.length ≠ 4)]
  rw [Option.map_some']
  show some (calculateDocumentScore idPrims ⟨20, 60, 0.005, 0.85, 0.01, 1.586, 0.35⟩
      ⟨2400, 1800⟩ dRect) = some ((27715525 : ℚ) / 27727245)
  rw [score_dRect]

/-- The 10×10 witness candidate: a centred square from (2,2) to (8,8). -/
def sq10 : Contour := [((2 : ℤ), (2 : ℤ)), (8, 2), (8, 8), (2, 8)]

/-- The bounds the pipeline returns on the 10×10 witness image. -/
def B10 : DocumentBounds :=
  ⟨1 / 5, 1 / 5, 4 / 5, 1 / 5, 4 / 5, 4 / 5, 1 / 5, 4 / 5, 2793 / 3965⟩

theorem wsz10 : workingSize ⟨10, 10⟩ = ⟨10, 10⟩ := by
  unfold workingSize
  rw [if_neg (by norm_num)]

theorem params10 : detectParams isoDefault ⟨10, 10⟩
    = ⟨30, 90, 0.05, 0.95, 0.02, 1.586, 0.5⟩ := by
  rw [detectParams, wsz10]
  norm_num [adaptParametersForImageSize, isoDefault, min_def, max_def]

theorem score_sq10 :
    calculateDocumentScore idPrims ⟨30, 90, 0.05, 0.95, 0.02, 1.586, 0.5⟩ ⟨10, 10⟩ sq10
      = 2793 / 3965 := by
  unfold calculateDocumentScore
  rw [if_neg (by norm_num [sq10])]
  norm_num [sq10, contourArea, shoelace2, shoelaceAux, cross2, boundingRect,
    min_def, max_def, idPrims, abs]

theorem ffd10 : findDocumentContours ⟨30, 90, 0.05, 0.95, 0.02, 1.586, 0.5⟩ ⟨10, 10⟩
    [sq10] = some [sq10] := by
  have hkeep : contourKeep ⟨30, 90, 0.05, 0.95, 0.02, 1.586, 0.5⟩ ⟨10, 10⟩ sq10
      = true := by
    unfold contourKeep
    norm_num [sq10, contourArea, shoelace2, shoelaceAux, cross2, boundingRect,
      min_def, max_def]
  simp [findDocumentContours, hkeep]

theorem fbest10 : findBestDocumentContour idPrims ⟨30, 90, 0.05, 0.95, 0.02, 1.586, 0.5⟩
    ⟨10, 10⟩ [sq10] = some (sq10, 2793 / 3965) := by
  have happrox : approxOf idPrims ⟨30, 90, 0.05, 0.95, 0.02, 1.586, 0.5⟩ sq10
      = sq10 := rfl
  simp [findBestDocumentContour, bestFold, happrox, score_sq10]
  norm_num

theorem sort_sq10 : sortCornerPoints sq10 = sq10 := by
  unfold sortCornerPoints
  rw [if_neg (by norm_num [sq10])]
  dsimp only
  have hc : centroidOf sq10 = (5, 5) := by decide
  rw [hc]
  have hsort : sq10.insertionSort (angLe (5, 5)) = sq10 := by
    norm_num [sq10, List.insertionSort, List.orderedInsert, angLe, angKey, angKeyPair,
      Prod.Lex.le_iff, Prod.mk_sub_mk]
  rw [hsort]
  have hidx : argminIdx sq10 = 0 := by decide
  rw [hidx, List.rotate_zero]

theorem extract10 : extractDocumentBounds idPrims ⟨30, 90, 0.05, 0.95, 0.02, 1.586, 0.5⟩
    ⟨10, 10⟩ sq10 = some B10 := by
  unfold extractDocumentBounds
  rw [if_neg (by norm_num [sq10])]
  dsimp only
  rw [if_pos (by norm_num [sq10] : sq10.length = 4)]
  rw [if_neg (by norm_num [sq10] : ¬ sq10.length ≠ 4)]
  rw [sort_sq10]
  norm_num [sq10, B10, score_sq10, DocumentBounds.mk.injEq]
  norm_num [calculateDocumentScore, sq10, contourArea, shoelace2, shoelaceAux, cross2,
    boundingRect, min_def, max_def, idPrims, abs]

theorem detect10 : detectDocument idPrims isoDefault ⟨10, 10⟩ [sq10] = some B10 := by
  unfold detectDocument
  rw [if_neg (by push_neg; norm_num)]
  dsimp only
  rw [params10, wsz10, ffd10]
  dsimp only
  rw [fbest10]
  dsimp only
  rw [if_pos (show scaleFactor ⟨10, 10⟩ = 1 from by
    unfold scaleFactor
    rw [if_neg (by norm_num)])]
  exact extract10

/-- C6 witness: the amended theorem at the 10×10 image — the returned
confidence equals the winning score 2793/3965 because no downscale
happened. -/
theorem C6_witness : B10.confidence = 2793 / 3965 :=
  C6_confidence_recomputed_unscaled idPrims isoDefault ⟨10, 10⟩ [sq10] [sq10] sq10
    (2793 / 3965) B10 (by norm_num) (by norm_num) (by norm_num)
    (by rw [params10, wsz10]; exact ffd10)
    (by rw [params10, wsz10]; exact fbest10)
    detect10

end IdReader
